import Mathlib

/-!
Verification of the pairing/reconnect server (src/index.js).

The file shallowly embeds the parts of the program the claims are about:

* the phone-number sanitization `String(NUMBER).replace(/[^0-9]/g, '')`;
* the pairing-code formatting `String(rawCode).match(/.{1,4}/g).join('-')`;
* the per-number reconnect counter, the connector attempt-limit guard and
  the `connection.update` handler (open / close-401 / recoverable close);
* the timer logic around the 401 grace-period cleanup and the pairing
  hold-window expiry cleanup;
* the mutex-serialized `/pair` HTTP handler versus the scheduled
  reconnect path that invokes `connector` directly;
* the synchronous decision flow of `connector` (temp-dir creation,
  auth-state load, already-registered branch, pairing-code request and
  its failure handling).

Machine integers do not occur (all counters and times are small
non-negative JS numbers), so `Nat` is used throughout.
-/

/-! ## Configuration constants (default values of the env-configurable vars) -/

/-- Default of `PAIR_HOLD_MS` (line 34). -/
def PAIR_HOLD_MS : Nat := 45000

/-- Default of `CLEANUP_DELAY_MS` (line 35): grace period before deleting after 401. -/
def CLEANUP_DELAY_MS : Nat := 15000

/-- Default of `MAX_RECONNECTS` (line 36). -/
def MAX_RECONNECTS : Nat := 3

/-- Default of `RECONNECT_BACKOFF_MS` (line 37). -/
def RECONNECT_BACKOFF_MS : Nat := 3000

/-- Baileys `DisconnectReason.connectionClosed`. -/
def DRconnectionClosed : Nat := 428

/-- Baileys `DisconnectReason.connectionLost`. -/
def DRconnectionLost : Nat := 408

/-- Baileys `DisconnectReason.restartRequired`. -/
def DRrestartRequired : Nat := 515

/-! ## Phone-number sanitization (line 77) -/

/-- The JS regex character class `[^0-9]`: true when the character is not a
decimal digit (code points 48 to 57). -/
def jsCharClassNonDigit (c : Char) : Bool :=
  !(48 ≤ c.toNat && c.toNat ≤ 57)

/-- Global regex replacement of each `[^0-9]` character by the empty string,
as performed by `String(NUMBER).replace(/[^0-9]/g, '')`: scan left to right,
each matching single character is replaced by nothing. -/
def jsReplaceNonDigits : List Char → List Char
  | [] => []
  | c :: cs => if jsCharClassNonDigit c then jsReplaceNonDigits cs
               else c :: jsReplaceNonDigits cs

/-- `const num = String(NUMBER).replace(/[^0-9]/g, '')` (line 77). -/
def sanitizeNumber (s : String) : String :=
  ⟨jsReplaceNonDigits s.data⟩

/-! ## Pairing-code formatting (line 211):
`String(rawCode).match(/.{1,4}/g).join('-')`.

A JS string is a sequence of UTF-16 code units, and the regex
`/.{1,4}/g` carries neither the `u` nor the `s` flag, so `.` matches one
single code unit (any unit except a line terminator; a character outside
the Basic Multilingual Plane is a surrogate pair of two units and is
matched as two separate units).  The formatting is therefore embedded at
the code-unit level: a Lean string (a list of Unicode scalar values) is
first encoded to its UTF-16 code units, the regex machinery works on
units, and the resulting JS string is represented by its unit list. -/

/-- The UTF-16 encoding of one Unicode scalar value: itself when it lies
in the Basic Multilingual Plane, and a high/low surrogate pair otherwise. -/
def charUtf16 (c : Char) : List Nat :=
  if c.toNat < 65536 then [c.toNat]
  else [55296 + (c.toNat - 65536) / 1024, 56320 + (c.toNat - 65536) % 1024]

/-- The UTF-16 code units of a string (given as its scalar values). -/
def utf16Units : List Char → List Nat
  | [] => []
  | c :: l => charUtf16 c ++ utf16Units l

/-- The JS regex `.` metacharacter without the `s` flag, on one UTF-16
code unit: matches every unit except the four line terminators
(LF, CR, U+2028, U+2029). -/
def jsDotU (u : Nat) : Bool :=
  !(u = 10 || u = 13 || u = 8232 || u = 8233)

/-- Convenience form of the same test on a character, used to state which
inputs the amended claim covers (a character is a line terminator exactly
when its single code unit is: surrogate halves are never terminators). -/
def jsDot (c : Char) : Bool :=
  !(c = '\n' || c = '\r' || c.toNat = 8232 || c.toNat = 8233)

/-- Greedily take up to `n` further `.`-matching code units
(the `{1,4}` quantifier continues as long as `.` matches, up to the bound). -/
def takeDotsU : Nat → List Nat → List Nat × List Nat
  | 0, us => ([], us)
  | _ + 1, [] => ([], [])
  | n + 1, u :: us =>
    if jsDotU u then
      let p := takeDotsU n us
      (u :: p.1, p.2)
    else ([], u :: us)

/-- Structural-recursion helper for `matchChunksU`: `fuel` is an upper
bound on the number of scan steps (each step consumes at least one code
unit, so the length of the list suffices). -/
def matchChunksAuxU : Nat → List Nat → List (List Nat)
  | 0, _ => []
  | _ + 1, [] => []
  | fuel + 1, u :: us =>
    if jsDotU u then (u :: (takeDotsU 3 us).1) :: matchChunksAuxU fuel (takeDotsU 3 us).2
    else matchChunksAuxU fuel us

/-- The list of matches of `/.{1,4}/g` over the code units of the input:
at each position where `.` matches, the quantifier greedily takes up to
four units and matching resumes after the match; at a position where `.`
fails the engine advances by one unit.  An empty result list corresponds
to `match` returning `null`. -/
def matchChunksU (l : List Nat) : List (List Nat) :=
  matchChunksAuxU l.length l

/-- `Array.prototype.join` with separator `-` (code unit 45). -/
def joinDashU : List (List Nat) → List Nat
  | [] => []
  | [x] => x
  | x :: y :: rest => x ++ 45 :: joinDashU (y :: rest)

/-- `Array.prototype.join` with separator `-`, on scalar values (used for
the specification-side character formatting). -/
def joinDash : List (List Char) → List Char
  | [] => []
  | [x] => x
  | x :: y :: rest => x ++ '-' :: joinDash (y :: rest)

/-- `String(rawCode).match(/.{1,4}/g).join('-')` (line 211), giving the
UTF-16 code units of the JS result string.  When `match` returns `null`
(no match at all), the subsequent `.join` throws a `TypeError`; that
outcome is `none`. -/
def formatPairingCodeUnits (s : String) : Option (List Nat) :=
  match matchChunksU (utf16Units s.data) with
  | [] => none
  | chunks => some (joinDashU chunks)

/-- Decode UTF-16 code units back to scalar values: a well-formed
surrogate pair becomes the astral character; a lone surrogate (which can
arise in the JS result when a group boundary splits a pair) is rendered as
U+FFFD, since a Lean string cannot hold it. -/
def utf16Decode : List Nat → List Char
  | [] => []
  | u :: rest =>
    if 55296 ≤ u ∧ u ≤ 56319 then
      match rest with
      | u2 :: rest2 =>
        if 56320 ≤ u2 ∧ u2 ≤ 57343 then
          Char.ofNat (65536 + (u - 55296) * 1024 + (u2 - 56320)) :: utf16Decode rest2
        else Char.ofNat 65533 :: utf16Decode (u2 :: rest2)
      | [] => [Char.ofNat 65533]
    else if 56320 ≤ u ∧ u ≤ 57343 then Char.ofNat 65533 :: utf16Decode rest
    else Char.ofNat u :: utf16Decode rest

/-- The formatted pairing code as a Lean string: the code units of the JS
result, decoded.  Exact whenever no group boundary splits a surrogate
pair; in particular exact on inputs whose characters all lie in the Basic
Multilingual Plane, which covers every use in the connector flow below. -/
def formatPairingCode (s : String) : Option String :=
  match formatPairingCodeUnits s with
  | none => none
  | some us => some ⟨utf16Decode us⟩

/-- Structural-recursion helper for `specChunks4` (fuel bounded by length). -/
def specChunks4Aux : Nat → List Char → List (List Char)
  | 0, _ => []
  | _ + 1, [] => []
  | fuel + 1, c :: cs => (c :: cs.take 3) :: specChunks4Aux fuel (cs.drop 3)

/-- Partition of a string into groups of exactly four characters where only
the final group may be shorter, following the words of the specification
(for comparison with `formatPairingCode`, which follows the source). -/
def specChunks4 (l : List Char) : List (List Char) :=
  specChunks4Aux l.length l

/-- The specification-side formatting: groups of four joined by the dash. -/
def specFormat (s : String) : Option String :=
  some ⟨joinDash (specChunks4 s.data)⟩

/-- Structural-recursion helper for `specChunks4U` (fuel bounded by
length). -/
def specChunks4AuxU : Nat → List Nat → List (List Nat)
  | 0, _ => []
  | _ + 1, [] => []
  | fuel + 1, u :: us => (u :: us.take 3) :: specChunks4AuxU fuel (us.drop 3)

/-- Partition of a code-unit sequence into groups of exactly four units
where only the final group may be shorter (the unit-level reading of the
specification words, to be compared with `matchChunksU`). -/
def specChunks4U (l : List Nat) : List (List Nat) :=
  specChunks4AuxU l.length l

/-! ## Connection lifecycle model (one phone number)

State machine over the events relevant to the reconnect counter: the
reconnect map entry for the number (`reconnectAttempts`), the number of
live sockets created for the number (sockets are created at line 106 and
never closed by this program; one socket emits one `close`), the number of
scheduled-but-not-yet-fired reconnect timers (line 193), and the global
`ACTIVE_SOCKET` reference (lines 41 and 117). -/

/-- The `connection` field of a `connection.update` payload.  `opn` stands
for the string `open`. -/
inductive ConnState where
  | connecting
  | opn
  | close
deriving DecidableEq

/-- A `connection.update` payload: the `connection` field and
`lastDisconnect.error.output.statusCode`. -/
structure ConnUpdate where
  connection : Option ConnState
  reasonCode : Option Nat
deriving DecidableEq

/-- Result of one run of the `connection.update` handler: the new value of
the reconnect-attempt counter for the number, whether a reconnect was
scheduled (line 193), and whether the 401 grace cleanup was scheduled
(line 174). -/
structure HandlerOut where
  attempts : Nat
  scheduleReconnect : Bool
  schedule401Cleanup : Bool
deriving DecidableEq

/-- The `connection.update` handler (lines 146 to 201) as a function of the
counter value read from the map, the `registered` flag and the payload:
on `open` the counter is set to 0 (line 154); on `close` with code 401 the
grace cleanup is scheduled when not registered (lines 163 to 184, early
return, no reconnect); on `close` with a recoverable code the counter is
incremented and a reconnect is scheduled when the new value is still
within the maximum (lines 187 to 196); any other close only logs. -/
def connectionUpdateHandler (maxR : Nat) (attempts : Nat) (registered : Bool)
    (u : ConnUpdate) : HandlerOut :=
  match u.connection with
  | some ConnState.opn =>
    { attempts := 0, scheduleReconnect := false, schedule401Cleanup := false }
  | some ConnState.close =>
    if u.reasonCode = some 401 then
      { attempts := attempts, scheduleReconnect := false,
        schedule401Cleanup := !registered }
    else if u.reasonCode = some DRconnectionClosed ∨
        u.reasonCode = some DRconnectionLost ∨
        u.reasonCode = some DRrestartRequired then
      { attempts := attempts + 1, scheduleReconnect := decide (attempts + 1 ≤ maxR),
        schedule401Cleanup := false }
    else
      { attempts := attempts, scheduleReconnect := false, schedule401Cleanup := false }
  | _ =>
    { attempts := attempts, scheduleReconnect := false, schedule401Cleanup := false }

/-- Lifecycle state for one phone number: the map entry
`reconnectAttempts.get(num) || 0`, the number of live sockets for the
number, the number of pending reconnect timers, and whether
`ACTIVE_SOCKET` is non-null. -/
structure LState where
  attempts : Nat
  live : Nat
  pending : Nat
  activeSocket : Bool
deriving DecidableEq

/-- Outcome of the synchronous head of `connector`. -/
inductive ConnOutcome where
  | rejected429
  | socketCreated
deriving DecidableEq

/-- The attempt-limit guard and socket creation of `connector`
(lines 91 to 96 and 106 to 117): when the stored counter has reached
`MAX_RECONNECTS` the call answers 429 and returns before `makeWASocket`;
otherwise a socket is created and `ACTIVE_SOCKET` is assigned. -/
def connectorStart (maxR : Nat) (s : LState) : LState × ConnOutcome :=
  if maxR ≤ s.attempts then (s, ConnOutcome.rejected429)
  else ({ s with live := s.live + 1, activeSocket := true }, ConnOutcome.socketCreated)

/-- The externally visible events of the lifecycle model.  `runPair` is a
`/pair` request reaching `connector`; `fireReconnect` is a reconnect timer
firing (it invokes `connector` again, line 193); `openEvt` and
`closeEvt rc` are `connection.update` notifications emitted by one of the
live sockets.  The `registered` flag is passed as `false` to the handler
because it only affects the 401-cleanup scheduling, which this model does
not track (see the timed model below). -/
inductive LEvent where
  | runPair
  | fireReconnect
  | openEvt
  | closeEvt (reasonCode : Option Nat)
deriving DecidableEq

/-- One step of the lifecycle model.  Events that have no sender (a timer
fire with no pending timer, a socket event with no live socket) leave the
state unchanged. -/
def lstep (maxR : Nat) (s : LState) : LEvent → LState
  | LEvent.runPair => (connectorStart maxR s).1
  | LEvent.fireReconnect =>
    if s.pending = 0 then s
    else (connectorStart maxR { s with pending := s.pending - 1 }).1
  | LEvent.openEvt =>
    if s.live = 0 then s
    else
      let h := connectionUpdateHandler maxR s.attempts false
        { connection := some ConnState.opn, reasonCode := none }
      { s with attempts := h.attempts }
  | LEvent.closeEvt rc =>
    if s.live = 0 then s
    else
      let h := connectionUpdateHandler maxR s.attempts false
        { connection := some ConnState.close, reasonCode := rc }
      { s with live := s.live - 1
               attempts := h.attempts
               pending := s.pending + (if h.scheduleReconnect then 1 else 0) }

/-- Initial lifecycle state: empty map entry, no sockets, no timers,
`ACTIVE_SOCKET = null` (line 41). -/
def linit : LState :=
  { attempts := 0, live := 0, pending := 0, activeSocket := false }

/-- Run the lifecycle model over an event sequence. -/
def runL (maxR : Nat) (es : List LEvent) : LState :=
  es.foldl (lstep maxR) linit

/-- The `active_socket` field of the `/status` response (line 284):
`!!ACTIVE_SOCKET`. -/
def statusActiveSocket (s : LState) : Bool := s.activeSocket

/-! ## Synchronous decision flow of `connector` (lines 74 to 264) -/

/-- The part of the serialized credential state that the program reads:
`creds.registered` and `creds.me.id`. -/
structure Creds where
  registered : Bool
  meId : Option String
deriving DecidableEq

/-- The credential state of a brand-new (empty) session directory:
not registered, no identity. -/
def freshCreds : Creds :=
  { registered := false, meId := none }

/-- Default of `SESSION_BASE_DIR` (line 32), relative form. -/
def SESSION_BASE_DIR : String := "session"

/-- Models the external client call `useMultiFileAuthState(dir)`: it loads
the credentials previously saved in `dir` when there are any, and
initializes a fresh unregistered state when the directory is new or empty.
The filesystem is a finite map from directory paths to saved credentials. -/
def useMultiFileAuthStateM (fs : List (String × Creds)) (dir : String) : Creds :=
  match fs.lookup dir with
  | some c => c
  | none => freshCreds

/-- `Boolean(state.creds?.registered || state.creds?.me?.id)`
(lines 102 and 123). -/
def isRegistered (c : Creds) : Bool :=
  c.registered || c.meId.isSome

/-- The per-attempt temporary session directory
`path.join(SESSION_BASE_DIR, num + "-" + Date.now())` (line 86). -/
def connTempDir (rawNumber : String) (now : Nat) : String :=
  SESSION_BASE_DIR ++ "/" ++ sanitizeNumber rawNumber ++ "-" ++ toString now

/-- The HTTP response sent by the synchronous part of `connector`
(`noResponse` when `res` is null or nothing was sent). -/
inductive HttpOut where
  | code (pretty : String)
  | alreadyRegistered
  | tooMany
  | pairingFailed (msg : Option String)
  | noResponse
deriving DecidableEq

/-- Observable outcome of one synchronous run of `connector`. -/
structure ConnectorResult where
  response : HttpOut
  socketCreated : Bool
  pairingRequested : Bool
  loadedCreds : Option Creds
  registeredAtLoad : Bool
  tempDir : String
  threw : Bool
deriving DecidableEq

/-- The synchronous decision flow of `connector(NUMBER, res)`:
sanitize the number (line 77), form the fresh temporary directory
(line 86), test the attempt-limit guard (lines 91 to 96, answering 429
before any socket is created), load the auth state from the temporary
directory (line 99), compute the `registered` flag (line 102), create the
socket (line 106) and either request a pairing code (lines 205 to 253,
with the catch branch answering 500 `pairing_failed` plus the failure
message) or answer `already_registered` (lines 254 to 257).  When the
code string produces no regex match, `match` returns `null` and the
`.join` on line 211 throws inside the same try, which the catch at line
250 turns into the 500 `pairing_failed` response as well.
`pairingCode` is the outcome of the external call
`sock.requestPairingCode(num)`. -/
def connectorSync (maxR : Nat) (fs : List (String × Creds)) (rawNumber : String)
    (now : Nat) (attempts : Nat) (resPresent : Bool)
    (pairingCode : Except String String) : ConnectorResult :=
  let tempDir := connTempDir rawNumber now
  if maxR ≤ attempts then
    { response := if resPresent then HttpOut.tooMany else HttpOut.noResponse
      socketCreated := false
      pairingRequested := false
      loadedCreds := none
      registeredAtLoad := false
      tempDir := tempDir
      threw := false }
  else
    let creds := useMultiFileAuthStateM fs tempDir
    let registered := isRegistered creds
    if registered then
      { response := if resPresent then HttpOut.alreadyRegistered else HttpOut.noResponse
        socketCreated := true
        pairingRequested := false
        loadedCreds := some creds
        registeredAtLoad := registered
        tempDir := tempDir
        threw := false }
    else
      match pairingCode with
      | Except.ok raw =>
        match formatPairingCode raw with
        | some pretty =>
          { response := if resPresent then HttpOut.code pretty else HttpOut.noResponse
            socketCreated := true
            pairingRequested := true
            loadedCreds := some creds
            registeredAtLoad := registered
            tempDir := tempDir
            threw := false }
        | none =>
          { response :=
              if resPresent then HttpOut.pairingFailed (some "TypeError: join of null")
              else HttpOut.noResponse
            socketCreated := true
            pairingRequested := true
            loadedCreds := some creds
            registeredAtLoad := registered
            tempDir := tempDir
            threw := false }
      | Except.error msg =>
        { response := if resPresent then HttpOut.pairingFailed (some msg)
              else HttpOut.noResponse
          socketCreated := true
          pairingRequested := true
          loadedCreds := some creds
          registeredAtLoad := registered
          tempDir := tempDir
          threw := false }

/-! ## Timed model of the per-invocation cleanup timers (claim C2)

One `connector` invocation owns one temporary directory, one socket
(which emits at most one `close`), the closure-local `registered` flag,
the 401 grace-period timer (lines 173 to 181) and the hold-window expiry
timer (lines 244 to 246).  A trace is a time-ordered list of the external
events; timers fire at their scheduled absolute times, before any later
event is processed (single-threaded event loop). -/

/-- External events of one invocation, with absolute times in ms:
`close401 t` is the `connection.update` close with reason 401;
`registerAt t` is the `creds.update` that makes `registered` true;
`holdExpire t` is the pairing hold window expiring unregistered
(line 242). -/
inductive PEvent where
  | close401 (t : Nat)
  | registerAt (t : Nat)
  | holdExpire (t : Nat)
deriving DecidableEq

/-- The absolute time of an event. -/
def PEvent.time : PEvent → Nat
  | PEvent.close401 t => t
  | PEvent.registerAt t => t
  | PEvent.holdExpire t => t

/-- Timer state of one invocation: the `registered` flag, the pending fire
times of the 401 cleanup timer (`cleanupTimer`, line 174) and of the
hold-expiry removal timer (line 244), whether the temporary directory
still exists, and the times at which `removeDir` actually removed it. -/
structure PState where
  registered : Bool
  cleanupTimer : Option Nat
  holdTimer : Option Nat
  dirPresent : Bool
  removals : List Nat
deriving DecidableEq

/-- State at the start of the invocation: directory just created
(line 87), nothing scheduled. -/
def pInit : PState :=
  { registered := false, cleanupTimer := none, holdTimer := none,
    dirPresent := true, removals := [] }

/-- `removeDir(tempDir)` at time `t` (line 48): removes the directory when
it still exists, otherwise does nothing. -/
def removeDirP (s : PState) (t : Nat) : PState :=
  if s.dirPresent then
    { s with dirPresent := false, removals := s.removals ++ [t] }
  else s

/-- The 401 grace timer firing at its scheduled time `f`
(lines 174 to 181): remove the directory unless registration happened. -/
def fireCleanupP (s : PState) (f : Nat) : PState :=
  let s1 := { s with cleanupTimer := none }
  if s1.registered then s1 else removeDirP s1 f

/-- The hold-expiry timer firing at its scheduled time `f`
(lines 244 to 246): remove the directory unless registration happened. -/
def fireHoldP (s : PState) (f : Nat) : PState :=
  let s1 := { s with holdTimer := none }
  if s1.registered then s1 else removeDirP s1 f

/-- Is a timer scheduled for time `f` due before the cut-off
(`none` meaning the end of the run)? -/
def dueP (upTo : Option Nat) (f : Nat) : Bool :=
  match upTo with
  | none => true
  | some u => f ≤ u

/-- Fire every due timer, earliest first (firing never schedules a new
timer, so one pass over the two timers suffices). -/
def fireDueP (s : PState) (upTo : Option Nat) : PState :=
  match s.cleanupTimer, s.holdTimer with
  | none, none => s
  | some c, none => if dueP upTo c then fireCleanupP s c else s
  | none, some h => if dueP upTo h then fireHoldP s h else s
  | some c, some h =>
    if dueP upTo c then
      if dueP upTo h then
        if h ≤ c then fireCleanupP (fireHoldP s h) c else fireHoldP (fireCleanupP s c) h
      else fireCleanupP s c
    else if dueP upTo h then fireHoldP s h
    else s

/-- Process one external event at its time: first fire the timers that
come due no later than the event, then apply the event.  A 401 close when
already registered does nothing (line 167); otherwise it replaces the
cleanup timer with one `delay` ms away (lines 173 and 174).  A hold-window
expiry when not registered schedules the removal 1000 ms away (line 244).
`creds.update` sets the registered flag (line 123). -/
def pStep (delay : Nat) (s : PState) (e : PEvent) : PState :=
  let s1 := fireDueP s (some e.time)
  match e with
  | PEvent.close401 t =>
    if s1.registered then s1 else { s1 with cleanupTimer := some (t + delay) }
  | PEvent.registerAt _ => { s1 with registered := true }
  | PEvent.holdExpire t =>
    if s1.registered then s1 else { s1 with holdTimer := some (t + 1000) }

/-- Run one invocation over its time-ordered event trace and then let the
remaining timers fire. -/
def pRun (delay : Nat) (es : List PEvent) : PState :=
  fireDueP (es.foldl (pStep delay) pInit) none

/-- Traces are listed in strictly increasing time order (the events of one
invocation happen at distinct instants of the single-threaded loop). -/
def SortedP (es : List PEvent) : Prop :=
  List.Pairwise (fun a b => a.time < b.time) es

/-- Invariant of the timed model along a trace without hold-expiry events
whose only 401 close happens at time `t`: after the processed prefix `p`,
either the 401 close has not happened yet (nothing scheduled, nothing
removed), or it has and the grace timer is still pending (every processed
event lies before the fire time), or the grace timer has been resolved
(it fired, removing the directory exactly at `t + delay` unless
registration had happened before the fire time). -/
def C2Inv (delay t : Nat) (p : List PEvent) (s : PState) : Prop :=
  s.holdTimer = none ∧
  ((PEvent.close401 t ∉ p ∧ s.registered = false ∧ s.cleanupTimer = none ∧
      s.removals = [] ∧ s.dirPresent = true)
  ∨ (PEvent.close401 t ∈ p ∧ (∀ e ∈ p, e.time < t + delay) ∧
      s.cleanupTimer = some (t + delay) ∧ s.removals = [] ∧ s.dirPresent = true ∧
      (s.registered = true ↔ ∃ u, PEvent.registerAt u ∈ p))
  ∨ (PEvent.close401 t ∈ p ∧ (∃ e ∈ p, t + delay ≤ e.time) ∧ s.cleanupTimer = none ∧
      (s.registered = true ↔ ∃ u, PEvent.registerAt u ∈ p) ∧
      ((∃ u, PEvent.registerAt u ∈ p ∧ u < t + delay) →
        s.removals = [] ∧ s.dirPresent = true) ∧
      ((¬ ∃ u, PEvent.registerAt u ∈ p ∧ u < t + delay) →
        s.removals = [t + delay] ∧ s.dirPresent = false)))

/-! ## Mutex-serialized scheduling model (claim C3)

Cooperative interleaving of the `/pair` handler tasks (which wrap
`connector` in `mutex.acquire` and a `finally` release, lines 268 to 281)
and scheduled-reconnect tasks (which call `connector` directly from the
timer callback of line 193, without the mutex).  A task is the list of its
remaining atomic steps: the code between two `await` points runs atomically
on the single-threaded loop, and the `work` steps stand for the awaited
directory-creation and credential-write operations inside `connector`. -/

/-- An atomic step of a task: acquiring the mutex, releasing it, or one
awaited `connector` operation tagged by `op` (0 for the temporary-directory
creation, 1 for the credential write, and so on). -/
inductive StepK where
  | acquire
  | release
  | work (op : Nat)
deriving DecidableEq

/-- The `/pair` handler body (lines 272 to 280): acquire the mutex, run
the awaited operations of `connector` (whatever its outcome: success, an
error thrown and caught at line 275, or an early return, each giving some
list `ws` of performed operations), then release the lock in the `finally`
clause, which runs after `await connector(...)` returned or threw in every
case. -/
def pairProg (ws : List Nat) : List StepK :=
  StepK.acquire :: ws.map StepK.work ++ [StepK.release]

/-- A scheduled reconnect (line 193): the timer callback invokes
`connector(num)` directly, with no `mutex.acquire` around it. -/
def reconnectProg (ws : List Nat) : List StepK :=
  ws.map StepK.work

/-- The remainder of a `/pair` task that is inside its critical section:
the remaining `connector` operations followed by the `finally` release. -/
def midProg (ws : List Nat) : List StepK :=
  ws.map StepK.work ++ [StepK.release]

/-- Scheduler state: the remaining program of every task, and the holder
of the mutex (`none` when free). -/
structure Sched where
  progs : List (List StepK)
  lock : Option Nat
deriving DecidableEq

/-- Execute the next step of task `t` when it is enabled: `acquire` only
proceeds while the mutex is free (otherwise the task stays suspended in
`mutex.acquire()`), `release` only when `t` holds it, and a `work` step
resumes whenever its awaited operation completes. -/
def execStep (s : Sched) (t : Nat) : Option Sched :=
  match s.progs[t]? with
  | none => none
  | some [] => none
  | some (StepK.acquire :: restP) =>
    match s.lock with
    | none => some { progs := s.progs.set t restP, lock := some t }
    | some _ => none
  | some (StepK.release :: restP) =>
    if s.lock = some t then some { progs := s.progs.set t restP, lock := none }
    else none
  | some (StepK.work _ :: restP) =>
    some { progs := s.progs.set t restP, lock := s.lock }

/-- Run a schedule (a list of task indices); the result records the final
state together with the executed `work` steps as pairs (task, operation)
in execution order.  `none` means the schedule was not executable. -/
def runTrace (s : Sched) : List Nat → Option (Sched × List (Nat × Nat))
  | [] => some (s, [])
  | t :: ts =>
    match execStep s t with
    | none => none
    | some s2 =>
      match runTrace s2 ts with
      | none => none
      | some r =>
        match s.progs[t]? with
        | some (StepK.work op :: _) => some (r.1, (t, op) :: r.2)
        | _ => some r

/-- The work steps of two invocations interleave when some invocation
performs an operation both before and after an operation of another one. -/
def Interleaved (l : List Nat) : Prop :=
  ∃ i j k, ∃ (hi : i < l.length) (hj : j < l.length) (hk : k < l.length),
    i < j ∧ j < k ∧ l.get ⟨i, hi⟩ = l.get ⟨k, hk⟩ ∧ l.get ⟨j, hj⟩ ≠ l.get ⟨i, hi⟩

/-- After its first occurrence in `l`, task `t` owns every later entry. -/
def OnceThenAlways (t : Nat) (l : List Nat) : Prop :=
  ∀ i j (hi : i < l.length) (hj : j < l.length), i < j →
    l.get ⟨i, hi⟩ = t → l.get ⟨j, hj⟩ = t

/-- Invariant of the scheduler when every task is a `/pair` handler:
the remainder of each task is a full handler, a critical-section tail, or
finished; a task is mid-critical exactly when it holds the mutex; every
task that has performed work has passed its acquire; the work trace so far
is not interleaved; and the steps after the lock holder started working
are all the holder's. -/
structure SInv (s : Sched) (os : List Nat) : Prop where
  shape : ∀ (t : Nat) (rem : List StepK), s.progs[t]? = some rem →
    (∃ ws, rem = pairProg ws) ∨ (∃ ws, rem = midProg ws) ∨ rem = []
  mid_lock : ∀ (t : Nat) (rem : List StepK), s.progs[t]? = some rem →
    (∃ ws, rem = midProg ws) → s.lock = some t
  lock_mid : ∀ t : Nat, s.lock = some t →
    ∃ rem, s.progs[t]? = some rem ∧ ∃ ws, rem = midProg ws
  started : ∀ a ∈ os, ∃ rem, s.progs[a]? = some rem ∧ ¬ ∃ ws, rem = pairProg ws
  nointer : ¬ Interleaved os
  holder_ota : ∀ t, s.lock = some t → OnceThenAlways t os

/-! ## Theorems -/

/-- Claim C8: for every raw phone-number input string, the sanitized
identifier consists of exactly the decimal digits of the input in order,
with all other characters removed. -/
theorem c8_sanitize_keeps_exactly_digits (s : String) :
    (sanitizeNumber s).data = s.data.filter Char.isDigit := by
  show jsReplaceNonDigits s.data = s.data.filter Char.isDigit
  have hb : ∀ c : Char, jsCharClassNonDigit c = !c.isDigit := by
    intro c
    unfold jsCharClassNonDigit Char.isDigit
    rfl
  induction s.data with
  | nil => rfl
  | cons c cs ih =>
    by_cases h : c.isDigit = true
    · simp [jsReplaceNonDigits, hb, h, List.filter_cons, ih]
    · simp [jsReplaceNonDigits, hb, h, List.filter_cons, ih]

/-! ### Helper lemmas about the pairing-code formatting -/

theorem takeDotsU_snd_length_le (n : Nat) (l : List Nat) :
    ((takeDotsU n l).2).length ≤ l.length := by
  induction l generalizing n with
  | nil => cases n <;> simp [takeDotsU]
  | cons u us ih =>
    cases n with
    | zero => simp [takeDotsU]
    | succ m =>
      simp only [takeDotsU]
      by_cases hd : jsDotU u = true
      · simpa [hd] using Nat.le_succ_of_le (ih m)
      · simp [hd]

theorem matchChunksAuxU_fuel (f : Nat) :
    ∀ (g : Nat) (l : List Nat), l.length ≤ f → l.length ≤ g →
      matchChunksAuxU f l = matchChunksAuxU g l := by
  induction f with
  | zero =>
    intro g l hf _
    have hl : l = [] := List.eq_nil_of_length_eq_zero (Nat.le_zero.mp hf)
    subst hl
    cases g <;> rfl
  | succ f ih =>
    intro g l hf hg
    cases l with
    | nil => cases g <;> rfl
    | cons u us =>
      cases g with
      | zero => simp at hg
      | succ g =>
        simp only [List.length_cons, Nat.succ_le_succ_iff] at hf hg
        simp only [matchChunksAuxU]
        by_cases hd : jsDotU u = true
        · rw [if_pos hd, if_pos hd]
          have h1 : ((takeDotsU 3 us).2).length ≤ f :=
            le_trans (takeDotsU_snd_length_le 3 us) hf
          have h2 : ((takeDotsU 3 us).2).length ≤ g :=
            le_trans (takeDotsU_snd_length_le 3 us) hg
          rw [ih g ((takeDotsU 3 us).2) h1 h2]
        · rw [if_neg hd, if_neg hd]
          exact ih g us hf hg

theorem matchChunksU_cons (u : Nat) (us : List Nat) :
    matchChunksU (u :: us) =
      if jsDotU u then (u :: (takeDotsU 3 us).1) :: matchChunksU ((takeDotsU 3 us).2)
      else matchChunksU us := by
  show matchChunksAuxU (us.length + 1) (u :: us) = _
  simp only [matchChunksAuxU]
  by_cases hd : jsDotU u = true
  · rw [if_pos hd, if_pos hd,
      matchChunksAuxU_fuel us.length ((takeDotsU 3 us).2).length ((takeDotsU 3 us).2)
        (takeDotsU_snd_length_le 3 us) le_rfl]
    rfl
  · rw [if_neg hd, if_neg hd]
    exact matchChunksAuxU_fuel us.length us.length us le_rfl le_rfl

theorem specChunks4Aux_fuel (f : Nat) :
    ∀ (g : Nat) (l : List Char), l.length ≤ f → l.length ≤ g →
      specChunks4Aux f l = specChunks4Aux g l := by
  induction f with
  | zero =>
    intro g l hf _
    have hl : l = [] := List.eq_nil_of_length_eq_zero (Nat.le_zero.mp hf)
    subst hl
    cases g <;> rfl
  | succ f ih =>
    intro g l hf hg
    cases l with
    | nil => cases g <;> rfl
    | cons c cs =>
      cases g with
      | zero => simp at hg
      | succ g =>
        simp only [List.length_cons, Nat.succ_le_succ_iff] at hf hg
        simp only [specChunks4Aux]
        have h1 : (cs.drop 3).length ≤ f := by
          rw [List.length_drop]
          omega
        have h2 : (cs.drop 3).length ≤ g := by
          rw [List.length_drop]
          omega
        rw [ih g (cs.drop 3) h1 h2]

theorem specChunks4_cons (c : Char) (cs : List Char) :
    specChunks4 (c :: cs) = (c :: cs.take 3) :: specChunks4 (cs.drop 3) := by
  show specChunks4Aux (cs.length + 1) (c :: cs) = _
  simp only [specChunks4Aux]
  rw [specChunks4Aux_fuel cs.length (cs.drop 3).length (cs.drop 3)
    (by rw [List.length_drop]; omega) le_rfl]
  rfl

theorem specChunks4AuxU_fuel (f : Nat) :
    ∀ (g : Nat) (l : List Nat), l.length ≤ f → l.length ≤ g →
      specChunks4AuxU f l = specChunks4AuxU g l := by
  induction f with
  | zero =>
    intro g l hf _
    have hl : l = [] := List.eq_nil_of_length_eq_zero (Nat.le_zero.mp hf)
    subst hl
    cases g <;> rfl
  | succ f ih =>
    intro g l hf hg
    cases l with
    | nil => cases g <;> rfl
    | cons u us =>
      cases g with
      | zero => simp at hg
      | succ g =>
        simp only [List.length_cons, Nat.succ_le_succ_iff] at hf hg
        simp only [specChunks4AuxU]
        have h1 : (us.drop 3).length ≤ f := by
          rw [List.length_drop]
          omega
        have h2 : (us.drop 3).length ≤ g := by
          rw [List.length_drop]
          omega
        rw [ih g (us.drop 3) h1 h2]

theorem specChunks4U_cons (u : Nat) (us : List Nat) :
    specChunks4U (u :: us) = (u :: us.take 3) :: specChunks4U (us.drop 3) := by
  show specChunks4AuxU (us.length + 1) (u :: us) = _
  simp only [specChunks4AuxU]
  rw [specChunks4AuxU_fuel us.length (us.drop 3).length (us.drop 3)
    (by rw [List.length_drop]; omega) le_rfl]
  rfl

theorem takeDotsU_all_dots (n : Nat) (l : List Nat) (h : ∀ u ∈ l, jsDotU u = true) :
    takeDotsU n l = (l.take n, l.drop n) := by
  induction l generalizing n with
  | nil => cases n <;> simp [takeDotsU]
  | cons u us ih =>
    cases n with
    | zero => simp [takeDotsU]
    | succ m =>
      have hu : jsDotU u = true := h u (List.mem_cons_self u us)
      simp only [takeDotsU, if_pos hu, List.take_succ_cons, List.drop_succ_cons]
      rw [ih m (fun x hx => h x (List.mem_cons_of_mem u hx))]

theorem matchChunksU_all_dots (f : Nat) :
    ∀ l : List Nat, l.length ≤ f → (∀ u ∈ l, jsDotU u = true) →
      matchChunksU l = specChunks4U l := by
  induction f with
  | zero =>
    intro l hf _
    have hl : l = [] := List.eq_nil_of_length_eq_zero (Nat.le_zero.mp hf)
    subst hl
    rfl
  | succ f ih =>
    intro l hf h
    cases l with
    | nil => rfl
    | cons u us =>
      simp only [List.length_cons, Nat.succ_le_succ_iff] at hf
      have hu : jsDotU u = true := h u (List.mem_cons_self u us)
      rw [matchChunksU_cons, if_pos hu, specChunks4U_cons,
        takeDotsU_all_dots 3 us (fun x hx => h x (List.mem_cons_of_mem u hx))]
      have hlen : (us.drop 3).length ≤ f := by
        rw [List.length_drop]
        omega
      rw [ih (us.drop 3) hlen
        (fun x hx => h x (List.mem_cons_of_mem u (List.mem_of_mem_drop hx)))]

theorem char_eq_of_toNat_eq (c d : Char) (h : c.toNat = d.toNat) : c = d :=
  Char.ext (UInt32.toNat.inj h)

theorem jsDotU_of_jsDot (c : Char) (h : jsDot c = true) : jsDotU c.toNat = true := by
  have h1 : c.toNat ≠ 10 := by
    intro heq
    have hc : c = '\n' := char_eq_of_toNat_eq c '\n' heq
    rw [hc] at h
    exact absurd h (by decide)
  have h2 : c.toNat ≠ 13 := by
    intro heq
    have hc : c = '\r' := char_eq_of_toNat_eq c '\r' heq
    rw [hc] at h
    exact absurd h (by decide)
  have h3 : c.toNat ≠ 8232 := by
    intro heq
    simp [jsDot, heq] at h
  have h4 : c.toNat ≠ 8233 := by
    intro heq
    simp [jsDot, heq] at h
  simp [jsDotU, h1, h2, h3, h4]

theorem charUtf16_ne_nil (c : Char) : charUtf16 c ≠ [] := by
  unfold charUtf16
  by_cases h : c.toNat < 65536
  · simp [h]
  · simp [h]

theorem utf16Units_ne_nil (l : List Char) (h : l ≠ []) : utf16Units l ≠ [] := by
  cases l with
  | nil => exact absurd rfl h
  | cons c cs =>
    show charUtf16 c ++ utf16Units cs ≠ []
    intro hnil
    rcases List.append_eq_nil.mp hnil with ⟨h1, _⟩
    exact charUtf16_ne_nil c h1

theorem mem_utf16Units (l : List Char) (u : Nat) (h : u ∈ utf16Units l) :
    ∃ c ∈ l, u ∈ charUtf16 c := by
  induction l with
  | nil => exact absurd h (List.not_mem_nil u)
  | cons c cs ih =>
    rcases List.mem_append.mp h with h1 | h2
    · exact ⟨c, List.mem_cons_self c cs, h1⟩
    · obtain ⟨d, hd, hu⟩ := ih h2
      exact ⟨d, List.mem_cons_of_mem c hd, hu⟩

theorem utf16Units_dots (l : List Char) (h : ∀ c ∈ l, jsDot c = true) :
    ∀ u ∈ utf16Units l, jsDotU u = true := by
  intro u hu
  obtain ⟨c, hc, hmem⟩ := mem_utf16Units l u hu
  unfold charUtf16 at hmem
  by_cases hb : c.toNat < 65536
  · rw [if_pos hb] at hmem
    have : u = c.toNat := by simpa using hmem
    rw [this]
    exact jsDotU_of_jsDot c (h c hc)
  · rw [if_neg hb] at hmem
    have hrange : 55296 ≤ u := by
      rcases (by simpa using hmem : u = 55296 + (c.toNat - 65536) / 1024 ∨
          u = 56320 + (c.toNat - 65536) % 1024) with h1 | h1 <;> omega
    simp [jsDotU]
    omega

theorem utf16Units_bmp (l : List Char) (h : ∀ c ∈ l, c.toNat < 65536) :
    utf16Units l = l.map Char.toNat := by
  induction l with
  | nil => rfl
  | cons c cs ih =>
    show charUtf16 c ++ utf16Units cs = c.toNat :: cs.map Char.toNat
    rw [ih (fun x hx => h x (List.mem_cons_of_mem c hx))]
    unfold charUtf16
    rw [if_pos (h c (List.mem_cons_self c cs))]
    rfl

theorem specChunks4U_map (f : Nat) :
    ∀ l : List Char, l.length ≤ f →
      specChunks4U (l.map Char.toNat) = (specChunks4 l).map (List.map Char.toNat) := by
  induction f with
  | zero =>
    intro l hf
    have hl : l = [] := List.eq_nil_of_length_eq_zero (Nat.le_zero.mp hf)
    subst hl
    rfl
  | succ f ih =>
    intro l hf
    cases l with
    | nil => rfl
    | cons c cs =>
      simp only [List.length_cons, Nat.succ_le_succ_iff] at hf
      rw [List.map_cons, specChunks4U_cons, specChunks4_cons, List.map_cons]
      have hlen : (cs.drop 3).length ≤ f := by
        rw [List.length_drop]
        omega
      rw [← List.map_take, ← List.map_drop, ih (cs.drop 3) hlen]
      simp

theorem joinDashU_map (chunks : List (List Char)) :
    joinDashU (chunks.map (List.map Char.toNat)) = (joinDash chunks).map Char.toNat := by
  induction chunks with
  | nil => rfl
  | cons x rest ih =>
    cases rest with
    | nil => rfl
    | cons y rest2 =>
      rw [List.map_cons] at ih
      simp only [List.map_cons, joinDashU, joinDash, List.map_append]
      rw [ih]
      have hd : Char.toNat (Char.ofNat 45) = 45 := rfl
      simp [hd]

theorem mem_specChunks4 (f : Nat) :
    ∀ (l : List Char) (ch : List Char), l.length ≤ f → ch ∈ specChunks4 l →
      ∀ x ∈ ch, x ∈ l := by
  induction f with
  | zero =>
    intro l ch hf hmem
    have hl : l = [] := List.eq_nil_of_length_eq_zero (Nat.le_zero.mp hf)
    subst hl
    exact absurd hmem (List.not_mem_nil ch)
  | succ f ih =>
    intro l ch hf hmem
    cases l with
    | nil => exact absurd hmem (List.not_mem_nil ch)
    | cons c cs =>
      simp only [List.length_cons, Nat.succ_le_succ_iff] at hf
      rw [specChunks4_cons] at hmem
      rcases List.mem_cons.mp hmem with h1 | h2
      · intro x hx
        subst h1
        rcases List.mem_cons.mp hx with hxc | hxt
        · exact hxc ▸ List.mem_cons_self c cs
        · exact List.mem_cons_of_mem c (List.take_subset 3 cs hxt)
      · intro x hx
        have hlen : (cs.drop 3).length ≤ f := by
          rw [List.length_drop]
          omega
        exact List.mem_cons_of_mem c
          (List.drop_subset 3 cs (ih (cs.drop 3) ch hlen h2 x hx))

theorem mem_joinDash (chunks : List (List Char)) (x : Char) (h : x ∈ joinDash chunks) :
    x = '-' ∨ ∃ ch ∈ chunks, x ∈ ch := by
  induction chunks with
  | nil => exact absurd h (List.not_mem_nil x)
  | cons a rest ih =>
    cases rest with
    | nil => exact Or.inr ⟨a, List.mem_cons_self a [], h⟩
    | cons b rest2 =>
      rcases List.mem_append.mp h with h1 | h2
      · exact Or.inr ⟨a, List.mem_cons_self a (b :: rest2), h1⟩
      · rcases List.mem_cons.mp h2 with h3 | h4
        · exact Or.inl h3
        · rcases ih h4 with h5 | ⟨ch, hch, hx⟩
          · exact Or.inl h5
          · exact Or.inr ⟨ch, List.mem_cons_of_mem a hch, hx⟩

/-! ### Claim C5 -/

/-- Claim C5 counterexample: the value returned is not always the string
partitioned into groups of four characters joined by the dash.  An empty
code makes `match` return `null` and `.join` throw (surfaced as a pairing
failure); a code with an embedded line terminator is regrouped with the
terminator silently dropped; and a code with a character outside the
Basic Multilingual Plane is grouped by UTF-16 code units (a surrogate
pair counts as two), so its first group holds only three characters. -/
theorem c5_counterexample :
    formatPairingCode "" = none ∧ specFormat "" = some "" ∧
    formatPairingCode "AB\nCD" = some "AB-CD" ∧
    specFormat "AB\nCD" = some "AB\nC-D" ∧
    formatPairingCode "AB\nCD" ≠ specFormat "AB\nCD" ∧
    formatPairingCode "😀ABCD" = some "😀AB-CD" ∧
    specFormat "😀ABCD" = some "😀ABC-D" ∧
    formatPairingCode "😀ABCD" ≠ specFormat "😀ABCD" := by
  refine ⟨rfl, rfl, rfl, rfl, by decide, rfl, rfl, by decide⟩

/-- Claim C5 (amended): for every nonempty pairing-code string none of
whose characters is a line terminator, the JS string returned to the HTTP
caller — represented faithfully by its UTF-16 code units — is the
code-unit sequence of the input partitioned into groups of exactly four
units joined by the dash, where only the final group may be shorter; and
whenever every character of the code lies in the Basic Multilingual Plane
(one unit per character, which holds for the alphanumeric codes the
protocol client issues) this is exactly the UTF-16 encoding of the input
partitioned into groups of exactly four characters joined by the dash. -/
theorem c5_amended_ok (s : String) (hne : s.data ≠ [])
    (hdots : ∀ c ∈ s.data, jsDot c = true) :
    formatPairingCodeUnits s = some (joinDashU (specChunks4U (utf16Units s.data))) ∧
    ((∀ c ∈ s.data, c.toNat < 65536) →
      formatPairingCodeUnits s = some (utf16Units (joinDash (specChunks4 s.data)))) := by
  have hneU : utf16Units s.data ≠ [] := utf16Units_ne_nil s.data hne
  have hdotsU : ∀ u ∈ utf16Units s.data, jsDotU u = true := utf16Units_dots s.data hdots
  have hmain : formatPairingCodeUnits s =
      some (joinDashU (specChunks4U (utf16Units s.data))) := by
    obtain ⟨u, us, hus⟩ := List.exists_cons_of_ne_nil hneU
    unfold formatPairingCodeUnits
    rw [matchChunksU_all_dots (utf16Units s.data).length (utf16Units s.data) le_rfl hdotsU,
      hus, specChunks4U_cons]
  refine ⟨hmain, fun hbmp => ?_⟩
  rw [hmain]
  have hjoin : ∀ x ∈ joinDash (specChunks4 s.data), x.toNat < 65536 := by
    intro x hx
    rcases mem_joinDash (specChunks4 s.data) x hx with h1 | ⟨ch, hch, hxch⟩
    · rw [h1]
      decide
    · exact hbmp x (mem_specChunks4 s.data.length s.data ch le_rfl hch x hxch)
  rw [utf16Units_bmp s.data hbmp, specChunks4U_map s.data.length s.data le_rfl,
    joinDashU_map, (utf16Units_bmp (joinDash (specChunks4 s.data)) hjoin).symm]

/-- Claim C5 amended-theorem witness at the concrete code `ABCDEFGH`. -/
theorem c5_amended_witness :
    (formatPairingCodeUnits "ABCDEFGH" =
      some (joinDashU (specChunks4U (utf16Units "ABCDEFGH".data)))) ∧
    ((∀ c ∈ "ABCDEFGH".data, c.toNat < 65536) →
      formatPairingCodeUnits "ABCDEFGH" =
        some (utf16Units (joinDash (specChunks4 "ABCDEFGH".data)))) :=
  c5_amended_ok "ABCDEFGH" (by decide) (by decide)

/-! ### Helper lemmas about the lifecycle model -/

theorem connectorStart_of_maxed (maxR : Nat) (s : LState) (h : maxR ≤ s.attempts) :
    connectorStart maxR s = (s, ConnOutcome.rejected429) := by
  unfold connectorStart
  rw [if_pos h]

theorem lstep_attempts_bound (maxR : Nat) (s : LState) (e : LEvent) (h0 : 0 < maxR)
    (hP1 : s.attempts ≤ maxR) (hP2 : s.live = 1 → s.attempts < maxR)
    (hl : s.live ≤ 1) (hl' : (lstep maxR s e).live ≤ 1) :
    (lstep maxR s e).attempts ≤ maxR ∧
      ((lstep maxR s e).live = 1 → (lstep maxR s e).attempts < maxR) := by
  cases e with
  | runPair =>
    by_cases hg : maxR ≤ s.attempts
    · rw [show lstep maxR s LEvent.runPair = s by
        simp [lstep, connectorStart_of_maxed maxR s hg]]
      exact ⟨hP1, hP2⟩
    · have hlt : s.attempts < maxR := Nat.lt_of_not_le hg
      have : lstep maxR s LEvent.runPair =
          { s with live := s.live + 1, activeSocket := true } := by
        simp [lstep, connectorStart, if_neg hg]
      rw [this]
      exact ⟨hP1, fun _ => hlt⟩
  | fireReconnect =>
    by_cases hp : s.pending = 0
    · rw [show lstep maxR s LEvent.fireReconnect = s by simp [lstep, hp]]
      exact ⟨hP1, hP2⟩
    · by_cases hg : maxR ≤ s.attempts
      · have : lstep maxR s LEvent.fireReconnect = { s with pending := s.pending - 1 } := by
          simp [lstep, hp, connectorStart_of_maxed maxR { s with pending := s.pending - 1 } hg]
        rw [this]
        exact ⟨hP1, hP2⟩
      · have hlt : s.attempts < maxR := Nat.lt_of_not_le hg
        have : lstep maxR s LEvent.fireReconnect =
            { s with pending := s.pending - 1, live := s.live + 1, activeSocket := true } := by
          simp [lstep, hp, connectorStart, if_neg hg]
        rw [this]
        exact ⟨hP1, fun _ => hlt⟩
  | openEvt =>
    by_cases hv : s.live = 0
    · rw [show lstep maxR s LEvent.openEvt = s by simp [lstep, hv]]
      exact ⟨hP1, hP2⟩
    · have : lstep maxR s LEvent.openEvt = { s with attempts := 0 } := by
        simp [lstep, hv, connectionUpdateHandler]
      rw [this]
      exact ⟨Nat.le_of_lt h0, fun _ => h0⟩
  | closeEvt rc =>
    by_cases hv : s.live = 0
    · rw [show lstep maxR s (LEvent.closeEvt rc) = s by simp [lstep, hv]]
      exact ⟨hP1, hP2⟩
    · have hone : s.live = 1 := by omega
      have hlt : s.attempts < maxR := hP2 hone
      have hzero : (lstep maxR s (LEvent.closeEvt rc)).live = 0 := by
        simp [lstep, hv, hone]
      by_cases h401 : rc = some 401
      · have : lstep maxR s (LEvent.closeEvt rc) =
            { s with live := s.live - 1, attempts := s.attempts, pending := s.pending } := by
          simp [lstep, hv, connectionUpdateHandler, h401]
        rw [this] at hzero ⊢
        exact ⟨hP1, fun hc => absurd (hzero ▸ hc) (by omega)⟩
      · by_cases hrec : rc = some DRconnectionClosed ∨ rc = some DRconnectionLost ∨
            rc = some DRrestartRequired
        · have : (lstep maxR s (LEvent.closeEvt rc)).attempts = s.attempts + 1 := by
            simp [lstep, hv, connectionUpdateHandler, h401, hrec]
          refine ⟨by omega, fun hc => ?_⟩
          rw [hzero] at hc
          omega
        · have : (lstep maxR s (LEvent.closeEvt rc)).attempts = s.attempts := by
            simp [lstep, hv, connectionUpdateHandler, h401, hrec]
          refine ⟨by omega, fun hc => ?_⟩
          rw [hzero] at hc
          omega

theorem foldl_attempts_le (maxR : Nat) (h0 : 0 < maxR) :
    ∀ (es : List LEvent) (s : LState),
      s.attempts ≤ maxR → (s.live = 1 → s.attempts < maxR) →
      (∀ n, n ≤ es.length → ((es.take n).foldl (lstep maxR) s).live ≤ 1) →
      (es.foldl (lstep maxR) s).attempts ≤ maxR := by
  intro es
  induction es with
  | nil =>
    intro s h1 _ _
    exact h1
  | cons e es ih =>
    intro s h1 h2 hl
    have hs : s.live ≤ 1 := by simpa using hl 0 (Nat.zero_le _)
    have hs' : (lstep maxR s e).live ≤ 1 := by
      simpa using hl 1 (Nat.succ_le_succ (Nat.zero_le _))
    obtain ⟨h1', h2'⟩ := lstep_attempts_bound maxR s e h0 h1 h2 hs hs'
    refine ih (lstep maxR s e) h1' h2' ?_
    intro n hn
    have h := hl (n + 1) (by simpa using Nat.succ_le_succ hn)
    simpa [List.take_succ_cons] using h

/-! ### Claim C1 -/

/-- Claim C1 counterexample: with several live sockets for the same number
(the program never closes a socket, and repeated `/pair` calls while the
counter is 0 each create one) the stored counter exceeds `MAX_RECONNECTS`,
because each recoverable close increments it unconditionally before the
limit test (lines 188 and 189). -/
theorem c1_counterexample :
    (runL MAX_RECONNECTS
      [LEvent.runPair, LEvent.runPair, LEvent.runPair, LEvent.runPair,
       LEvent.closeEvt (some DRconnectionLost), LEvent.closeEvt (some DRconnectionLost),
       LEvent.closeEvt (some DRconnectionLost), LEvent.closeEvt (some DRconnectionLost)]).attempts
      = 4 ∧
    MAX_RECONNECTS <
      (runL MAX_RECONNECTS
        [LEvent.runPair, LEvent.runPair, LEvent.runPair, LEvent.runPair,
         LEvent.closeEvt (some DRconnectionLost), LEvent.closeEvt (some DRconnectionLost),
         LEvent.closeEvt (some DRconnectionLost), LEvent.closeEvt (some DRconnectionLost)]).attempts := by
  constructor
  · decide
  · decide

/-- Claim C1 (amended): in every run where at most one socket for the number
is ever live at a time, the stored reconnect counter never exceeds the
configured maximum; moreover, from any state where the counter has reached
the maximum, no step schedules a further reconnect (the pending-timer count
never grows), and every `connector` call finds the guard and returns the
429 rejection without creating a socket. -/
theorem c1_amended_ok :
    (∀ (maxR : Nat) (es : List LEvent), 0 < maxR →
      (∀ n, n ≤ es.length → (runL maxR (es.take n)).live ≤ 1) →
      (runL maxR es).attempts ≤ maxR)
    ∧ (∀ (maxR : Nat) (s : LState) (e : LEvent), maxR ≤ s.attempts →
        (lstep maxR s e).pending ≤ s.pending)
    ∧ (∀ (maxR : Nat) (s : LState), maxR ≤ s.attempts →
        connectorStart maxR s = (s, ConnOutcome.rejected429)) := by
  refine ⟨?_, ?_, ?_⟩
  · intro maxR es h0 hl
    exact foldl_attempts_le maxR h0 es linit (by simp [linit]) (by simp [linit]) hl
  · intro maxR s e hg
    cases e with
    | runPair =>
      simp [lstep, connectorStart_of_maxed maxR s hg]
    | fireReconnect =>
      by_cases hp : s.pending = 0
      · simp [lstep, hp]
      · simp [lstep, hp,
          connectorStart_of_maxed maxR { s with pending := s.pending - 1 } hg]
    | openEvt =>
      by_cases hv : s.live = 0
      · simp [lstep, hv]
      · simp [lstep, hv, connectionUpdateHandler]
    | closeEvt rc =>
      by_cases hv : s.live = 0
      · simp [lstep, hv]
      · by_cases h401 : rc = some 401
        · simp [lstep, hv, connectionUpdateHandler, h401]
        · by_cases hrec : rc = some DRconnectionClosed ∨ rc = some DRconnectionLost ∨
              rc = some DRrestartRequired
          · have hfalse : ¬ (s.attempts + 1 ≤ maxR) := by omega
            simp [lstep, hv, connectionUpdateHandler, h401, hrec, hfalse]
          · simp [lstep, hv, connectionUpdateHandler, h401, hrec]
  · intro maxR s hg
    exact connectorStart_of_maxed maxR s hg

/-- Claim C1 amended-theorem witness: concrete instances of all three
conjuncts at the default maximum. -/
theorem c1_amended_witness :
    (runL 3 [LEvent.runPair, LEvent.closeEvt (some DRconnectionLost)]).attempts ≤ 3 ∧
    (lstep 3 { attempts := 3, live := 1, pending := 0, activeSocket := true }
        (LEvent.closeEvt (some DRconnectionLost))).pending ≤
      (({ attempts := 3, live := 1, pending := 0, activeSocket := true } : LState)).pending ∧
    connectorStart 3 { attempts := 3, live := 1, pending := 0, activeSocket := true } =
      ({ attempts := 3, live := 1, pending := 0, activeSocket := true }, ConnOutcome.rejected429) :=
  ⟨c1_amended_ok.1 3 _ (by decide) (by decide),
   c1_amended_ok.2.1 3 _ _ (by decide),
   c1_amended_ok.2.2 3 _ (by decide)⟩

/-! ### Claim C6 -/

/-- Claim C6: on every `connection.update` notification whose `connection`
field is `open`, the handler sets the reconnect-attempt counter for the
number to zero (line 154), whatever its previous value, the registered
flag, or the attached reason code. -/
theorem c6_open_resets_counter (maxR attempts : Nat) (registered : Bool) (rc : Option Nat) :
    (connectionUpdateHandler maxR attempts registered
      { connection := some ConnState.opn, reasonCode := rc }).attempts = 0 := rfl

/-! ### Claim C10 -/

/-- Claim C10: `ACTIVE_SOCKET` is assigned on every `connector` invocation
that creates a socket (line 117) and no step of the system ever resets it
to null, so once any socket has been created the `/status` endpoint
reports `active_socket = true` forever after, even when every connection
has closed. -/
theorem c10_active_socket_latched :
    (∀ (maxR : Nat) (s : LState) (e : LEvent),
        s.activeSocket = true → (lstep maxR s e).activeSocket = true)
    ∧ (∀ (maxR : Nat) (s : LState),
        (connectorStart maxR s).2 = ConnOutcome.socketCreated →
        (connectorStart maxR s).1.activeSocket = true)
    ∧ (∀ (maxR : Nat) (s : LState) (es : List LEvent),
        s.activeSocket = true →
        statusActiveSocket (es.foldl (lstep maxR) s) = true) := by
  have hstep : ∀ (maxR : Nat) (s : LState) (e : LEvent),
      s.activeSocket = true → (lstep maxR s e).activeSocket = true := by
    intro maxR s e h
    cases e with
    | runPair =>
      by_cases hg : maxR ≤ s.attempts
      · simpa [lstep, connectorStart_of_maxed maxR s hg] using h
      · simp [lstep, connectorStart, if_neg hg]
    | fireReconnect =>
      by_cases hp : s.pending = 0
      · simpa [lstep, hp] using h
      · by_cases hg : maxR ≤ s.attempts
        · simpa [lstep, hp,
            connectorStart_of_maxed maxR { s with pending := s.pending - 1 } hg] using h
        · simp [lstep, hp, connectorStart, if_neg hg]
    | openEvt =>
      by_cases hv : s.live = 0
      · simpa [lstep, hv] using h
      · simpa [lstep, hv] using h
    | closeEvt rc =>
      by_cases hv : s.live = 0
      · simpa [lstep, hv] using h
      · simpa [lstep, hv] using h
  refine ⟨hstep, ?_, ?_⟩
  · intro maxR s hcreated
    by_cases hg : maxR ≤ s.attempts
    · rw [connectorStart_of_maxed maxR s hg] at hcreated
      exact absurd hcreated (by simp)
    · simp [connectorStart, if_neg hg]
  · intro maxR s es h
    induction es generalizing s with
    | nil => exact h
    | cons e es ih =>
      exact ih (lstep maxR s e) (hstep maxR s e h)

/-- Claim C10 witness: concrete instances of the three conjuncts. -/
theorem c10_witness :
    (lstep 3 { attempts := 0, live := 1, pending := 0, activeSocket := true }
      LEvent.openEvt).activeSocket = true ∧
    (connectorStart 3 linit).1.activeSocket = true ∧
    statusActiveSocket
      ([LEvent.closeEvt (some 401)].foldl (lstep 3)
        { attempts := 0, live := 1, pending := 0, activeSocket := true }) = true :=
  ⟨c10_active_socket_latched.1 3 _ _ (by decide),
   c10_active_socket_latched.2.1 3 linit (by decide),
   c10_active_socket_latched.2.2 3 _ _ (by decide)⟩

/-! ### Claims C4, C7 and C9 (connector synchronous flow) -/

theorem connectorSync_guard_passed (maxR : Nat) (fs : List (String × Creds))
    (raw : String) (now attempts : Nat) (resPresent : Bool)
    (pc : Except String String) (hguard : attempts < maxR) :
    connectorSync maxR fs raw now attempts resPresent pc =
      (let tempDir := connTempDir raw now
       let creds := useMultiFileAuthStateM fs tempDir
       let registered := isRegistered creds
       if registered then
         { response := if resPresent then HttpOut.alreadyRegistered else HttpOut.noResponse
           socketCreated := true
           pairingRequested := false
           loadedCreds := some creds
           registeredAtLoad := registered
           tempDir := tempDir
           threw := false }
       else
         match pc with
         | Except.ok raw2 =>
           match formatPairingCode raw2 with
           | some pretty =>
             { response := if resPresent then HttpOut.code pretty else HttpOut.noResponse
               socketCreated := true
               pairingRequested := true
               loadedCreds := some creds
               registeredAtLoad := registered
               tempDir := tempDir
               threw := false }
           | none =>
             { response :=
                 if resPresent then HttpOut.pairingFailed (some "TypeError: join of null")
                 else HttpOut.noResponse
               socketCreated := true
               pairingRequested := true
               loadedCreds := some creds
               registeredAtLoad := registered
               tempDir := tempDir
               threw := false }
         | Except.error msg =>
           { response := if resPresent then HttpOut.pairingFailed (some msg)
                 else HttpOut.noResponse
             socketCreated := true
             pairingRequested := true
             loadedCreds := some creds
             registeredAtLoad := registered
             tempDir := tempDir
             threw := false }) := by
  unfold connectorSync
  rw [if_neg (Nat.not_le.mpr hguard)]

/-- Claim C9: every `connector` invocation that passes the attempt-limit
guard creates a fresh timestamped temporary session directory (no earlier
attempt wrote to that path, expressed by the lookup hypothesis) and loads
credential state only from it, so the loaded state is the fresh
unregistered one and the registered flag computed at load time is false;
credential state saved by a previous attempt is never reloaded. -/
theorem c9_fresh_state_each_invocation (maxR : Nat) (fs : List (String × Creds))
    (raw : String) (now attempts : Nat) (resPresent : Bool)
    (pc : Except String String) (hguard : attempts < maxR)
    (hfresh : fs.lookup (connTempDir raw now) = none) :
    (connectorSync maxR fs raw now attempts resPresent pc).loadedCreds = some freshCreds ∧
    (connectorSync maxR fs raw now attempts resPresent pc).registeredAtLoad = false ∧
    (connectorSync maxR fs raw now attempts resPresent pc).tempDir = connTempDir raw now := by
  rw [connectorSync_guard_passed maxR fs raw now attempts resPresent pc hguard]
  have hcreds : useMultiFileAuthStateM fs (connTempDir raw now) = freshCreds := by
    unfold useMultiFileAuthStateM
    rw [hfresh]
  cases pc with
  | ok raw2 =>
    cases hfc : formatPairingCode raw2 with
    | some pretty => simp [hcreds, hfc, isRegistered, freshCreds]
    | none => simp [hcreds, hfc, isRegistered, freshCreds]
  | error msg => simp [hcreds, isRegistered, freshCreds]

/-- Claim C9 witness at a concrete fresh invocation. -/
theorem c9_witness :
    (connectorSync 3 [] "1 555" 1 0 true (Except.ok "ABCDEFGH")).loadedCreds
        = some freshCreds ∧
    (connectorSync 3 [] "1 555" 1 0 true (Except.ok "ABCDEFGH")).registeredAtLoad = false ∧
    (connectorSync 3 [] "1 555" 1 0 true (Except.ok "ABCDEFGH")).tempDir
        = connTempDir "1 555" 1 :=
  c9_fresh_state_each_invocation 3 [] "1 555" 1 0 true (Except.ok "ABCDEFGH")
    (by decide) rfl

/-- Claim C7: when the external `requestPairingCode` call rejects, the
HTTP caller receives the 500 `pairing_failed` response carrying the
failure message, and `connector` returns normally (the rejection is caught
at line 250, so the process does not crash). -/
theorem c7_pairing_failure_surfaced (maxR : Nat) (fs : List (String × Creds))
    (raw : String) (now attempts : Nat) (msg : String)
    (hguard : attempts < maxR)
    (hreg : isRegistered (useMultiFileAuthStateM fs (connTempDir raw now)) = false) :
    (connectorSync maxR fs raw now attempts true (Except.error msg)).response =
      HttpOut.pairingFailed (some msg) ∧
    (connectorSync maxR fs raw now attempts true (Except.error msg)).threw = false := by
  rw [connectorSync_guard_passed maxR fs raw now attempts true (Except.error msg) hguard]
  simp [hreg]

/-- Claim C7 witness at a concrete rejected pairing request. -/
theorem c7_witness :
    (connectorSync 3 [] "777" 5 0 true (Except.error "boom")).response =
      HttpOut.pairingFailed (some "boom") ∧
    (connectorSync 3 [] "777" 5 0 true (Except.error "boom")).threw = false :=
  c7_pairing_failure_surfaced 3 [] "777" 5 0 "boom" (by decide) rfl

/-- Claim C4 counterexample: a second `/pair` request for a number whose
registration already completed (its credentials sit in the persistent
store after the move at lines 127 to 135) does not take the
already-registered branch: the invocation loads state from a brand-new
temporary directory, finds it unregistered, and requests a new pairing
code. -/
theorem c4_counterexample :
    (connectorSync 3 [("session_persist/777", { registered := true, meId := some "mid" })]
        "777" 99 0 true (Except.ok "ABCDEFGH")).response = HttpOut.code "ABCD-EFGH" ∧
    (connectorSync 3 [("session_persist/777", { registered := true, meId := some "mid" })]
        "777" 99 0 true (Except.ok "ABCDEFGH")).pairingRequested = true ∧
    (connectorSync 3 [("session_persist/777", { registered := true, meId := some "mid" })]
        "777" 99 0 true (Except.ok "ABCDEFGH")).loadedCreds = some freshCreds ∧
    (connectorSync 3 [("session_persist/777", { registered := true, meId := some "mid" })]
        "777" 99 0 true (Except.ok "ABCDEFGH")).response ≠ HttpOut.alreadyRegistered := by
  refine ⟨rfl, rfl, rfl, ?_⟩
  decide

/-- Claim C4 (amended): when the credential state loaded for the number
indicates the account is registered, the flow responds
`already_registered` and performs no pairing-code request; but because
every invocation loads state from a fresh per-attempt temporary directory,
this branch is not the one taken by a second `/pair` request for an
already-registered number, which instead requests a new pairing code. -/
theorem c4_amended_ok (maxR : Nat) (fs : List (String × Creds))
    (raw : String) (now attempts : Nat) (pc : Except String String)
    (hguard : attempts < maxR)
    (hreg : isRegistered (useMultiFileAuthStateM fs (connTempDir raw now)) = true) :
    (connectorSync maxR fs raw now attempts true pc).response = HttpOut.alreadyRegistered ∧
    (connectorSync maxR fs raw now attempts true pc).pairingRequested = false := by
  rw [connectorSync_guard_passed maxR fs raw now attempts true pc hguard]
  simp [hreg]

/-- Claim C4 amended-theorem witness: a filesystem that does contain saved
registered credentials under the exact temporary path that the invocation
computes. -/
theorem c4_amended_witness :
    (connectorSync 3 [("session/777-99", { registered := true, meId := none })]
        "777" 99 0 true (Except.ok "ABCDEFGH")).response = HttpOut.alreadyRegistered ∧
    (connectorSync 3 [("session/777-99", { registered := true, meId := none })]
        "777" 99 0 true (Except.ok "ABCDEFGH")).pairingRequested = false :=
  c4_amended_ok 3 [("session/777-99", { registered := true, meId := none })]
    "777" 99 0 (Except.ok "ABCDEFGH") (by decide) (by decide)

/-! ### Claim C2 -/

/-- Claim C2 counterexample: a hold-window expiry shortly before a 401
close removes the temporary directory only 500 ms after the 401 event
(well before the 15000 ms grace delay), although registration completes
before the grace delay elapses.  The overlapping timers are the race the
design notes of the specification acknowledge. -/
theorem c2_counterexample :
    SortedP [PEvent.holdExpire 45000, PEvent.close401 45500, PEvent.registerAt 46500] ∧
    PEvent.close401 45500 ∈
      [PEvent.holdExpire 45000, PEvent.close401 45500, PEvent.registerAt 46500] ∧
    (∀ u, PEvent.registerAt u ∈
      [PEvent.holdExpire 45000, PEvent.close401 45500, PEvent.registerAt 46500] →
      45500 < u) ∧
    (pRun CLEANUP_DELAY_MS
      [PEvent.holdExpire 45000, PEvent.close401 45500, PEvent.registerAt 46500]).removals
      = [46000] ∧
    46000 < 45500 + CLEANUP_DELAY_MS ∧
    (PEvent.registerAt 46500 ∈
      [PEvent.holdExpire 45000, PEvent.close401 45500, PEvent.registerAt 46500] ∧
      46500 < 45500 + CLEANUP_DELAY_MS) := by
  refine ⟨?_, ?_, ?_, ?_, ?_, ?_, ?_⟩
  · unfold SortedP
    decide
  · decide
  · intro u hu
    simp only [List.mem_cons, List.not_mem_nil, or_false] at hu
    rcases hu with h | h | h
    · cases h
    · cases h
    · cases h
      omega
  · decide
  · decide
  · decide
  · decide

theorem c2_inv_step (delay t : Nat) (hd : 0 < delay) (es : List PEvent)
    (hsort : SortedP es)
    (hnh : ∀ u, PEvent.holdExpire u ∉ es)
    (huniq : ∀ u, PEvent.close401 u ∈ es → u = t)
    (hregall : ∀ u, PEvent.registerAt u ∈ es → t < u)
    (hces : PEvent.close401 t ∈ es)
    (p rest : List PEvent) (e : PEvent) (s : PState)
    (heq : es = p ++ e :: rest)
    (hinv : C2Inv delay t p s) :
    C2Inv delay t (p ++ [e]) (pStep delay s e) := by
  have hs2 : List.Pairwise (fun a b => PEvent.time a < PEvent.time b) (p ++ e :: rest) := by
    rw [heq] at hsort
    exact hsort
  have hpa := List.pairwise_append.mp hs2
  have hF1 : ∀ a ∈ p, a.time < e.time :=
    fun a ha => hpa.2.2 a ha e (List.mem_cons_self e rest)
  have hErest : ∀ b ∈ rest, e.time < b.time := (List.pairwise_cons.mp hpa.2.1).1
  have hemem : e ∈ es := by
    rw [heq]
    exact List.mem_append_right p (List.mem_cons_self e rest)
  have hmemes : ∀ a ∈ p, a ∈ es := by
    intro a ha
    rw [heq]
    exact List.mem_append_left _ ha
  obtain ⟨sreg, sct, sht, sdp, srem⟩ := s
  unfold C2Inv at hinv
  dsimp only at hinv
  obtain ⟨hhold, hcase⟩ := hinv
  subst hhold
  cases e with
  | holdExpire u => exact absurd hemem (hnh u)
  | close401 u =>
    have hut : t = u := (huniq u hemem).symm
    subst hut
    have hnp : PEvent.close401 t ∉ p := by
      intro hmem
      have h1 : t < t := hF1 _ hmem
      exact absurd h1 (lt_irrefl t)
    rcases hcase with ⟨_, hA2, hA3, hA4, hA5⟩ | ⟨hB1, _⟩ | ⟨hC1, _⟩
    · subst hA2
      subst hA3
      subst hA4
      subst hA5
      have hps : pStep delay ⟨false, none, none, true, []⟩ (PEvent.close401 t) =
          ⟨false, some (t + delay), none, true, []⟩ := rfl
      rw [hps]
      unfold C2Inv
      refine ⟨rfl, Or.inr (Or.inl ⟨?_, ?_, rfl, rfl, rfl, ?_⟩)⟩
      · simp
      · intro x hx
        rcases List.mem_append.mp hx with hxp | hxe
        · exact lt_of_lt_of_le (hF1 x hxp) (Nat.le_add_right t delay)
        · simp only [List.mem_singleton] at hxe
          subst hxe
          exact Nat.lt_add_of_pos_right hd
      · constructor
        · intro h
          exact absurd h (by simp)
        · rintro ⟨u2, hu2⟩
          rcases List.mem_append.mp hu2 with hxp | hxe
          · have h1 : u2 < t := hF1 _ hxp
            have h2 := hregall u2 (hmemes _ hxp)
            omega
          · simp at hxe
    · exact absurd hB1 hnp
    · exact absurd hC1 hnp
  | registerAt u =>
    have htu : t < u := hregall u hemem
    rcases hcase with ⟨hA1, hA2, hA3, hA4, hA5⟩ | ⟨hB1, hB2, hB3, hB4, hB5, hB6⟩ |
      ⟨hC1, hC2, hC3, hC4, hC5, hC6⟩
    · exfalso
      rw [heq] at hces
      rcases List.mem_append.mp hces with hxp | hxe
      · exact hA1 hxp
      · rcases List.mem_cons.mp hxe with hh | hh
        · cases hh
        · have h1 : u < t := hErest _ hh
          omega
    · subst hB3
      subst hB4
      subst hB5
      by_cases hlt : u < t + delay
      · have hps : pStep delay ⟨sreg, some (t + delay), none, true, []⟩
            (PEvent.registerAt u) = ⟨true, some (t + delay), none, true, []⟩ := by
          simp [pStep, fireDueP, dueP, PEvent.time, Nat.not_le.mpr hlt]
        rw [hps]
        unfold C2Inv
        refine ⟨rfl, Or.inr (Or.inl ⟨List.mem_append_left _ hB1, ?_, rfl, rfl, rfl, ?_⟩)⟩
        · intro x hx
          rcases List.mem_append.mp hx with hxp | hxe
          · exact hB2 x hxp
          · simp only [List.mem_singleton] at hxe
            subst hxe
            exact hlt
        · exact iff_of_true rfl ⟨u, List.mem_append_right _ (by simp)⟩
      · have hle : t + delay ≤ u := Nat.not_lt.mp hlt
        cases sreg with
        | true =>
          have hps : pStep delay ⟨true, some (t + delay), none, true, []⟩
              (PEvent.registerAt u) = ⟨true, none, none, true, []⟩ := by
            simp [pStep, fireDueP, dueP, PEvent.time, hle, fireCleanupP]
          rw [hps]
          unfold C2Inv
          refine ⟨rfl, Or.inr (Or.inr ⟨List.mem_append_left _ hB1,
            ⟨PEvent.registerAt u, List.mem_append_right _ (by simp), hle⟩,
            rfl, iff_of_true rfl ⟨u, List.mem_append_right _ (by simp)⟩, ?_, ?_⟩)⟩
          · intro _
            exact ⟨rfl, rfl⟩
          · intro hn
            exfalso
            obtain ⟨u2, hu2⟩ := hB6.mp rfl
            exact hn ⟨u2, List.mem_append_left _ hu2, hB2 _ hu2⟩
        | false =>
          have hps : pStep delay ⟨false, some (t + delay), none, true, []⟩
              (PEvent.registerAt u) = ⟨true, none, none, false, [t + delay]⟩ := by
            simp [pStep, fireDueP, dueP, PEvent.time, hle, fireCleanupP, removeDirP]
          rw [hps]
          unfold C2Inv
          refine ⟨rfl, Or.inr (Or.inr ⟨List.mem_append_left _ hB1,
            ⟨PEvent.registerAt u, List.mem_append_right _ (by simp), hle⟩,
            rfl, iff_of_true rfl ⟨u, List.mem_append_right _ (by simp)⟩, ?_, ?_⟩)⟩
          · rintro ⟨u2, hu2, hlt2⟩
            exfalso
            rcases List.mem_append.mp hu2 with hxp | hxe
            · exact absurd (hB6.mpr ⟨u2, hxp⟩) (by simp)
            · simp only [List.mem_singleton, PEvent.registerAt.injEq] at hxe
              subst hxe
              omega
          · intro _
            exact ⟨rfl, rfl⟩
    · subst hC3
      have hps : pStep delay ⟨sreg, none, none, sdp, srem⟩ (PEvent.registerAt u) =
          ⟨true, none, none, sdp, srem⟩ := rfl
      rw [hps]
      obtain ⟨e0, he0, he0t⟩ := hC2
      have hu_gt : ¬ (u < t + delay) := by
        have h1 : PEvent.time e0 < u := hF1 e0 he0
        omega
      unfold C2Inv
      refine ⟨rfl, Or.inr (Or.inr ⟨List.mem_append_left _ hC1,
        ⟨e0, List.mem_append_left _ he0, he0t⟩, rfl,
        iff_of_true rfl ⟨u, List.mem_append_right _ (by simp)⟩, ?_, ?_⟩)⟩
      · rintro ⟨u2, hu2, hlt2⟩
        rcases List.mem_append.mp hu2 with hxp | hxe
        · exact hC5 ⟨u2, hxp, hlt2⟩
        · simp only [List.mem_singleton, PEvent.registerAt.injEq] at hxe
          subst hxe
          exact absurd hlt2 hu_gt
      · intro hn
        refine hC6 ?_
        rintro ⟨u2, hu2, hlt2⟩
        exact hn ⟨u2, List.mem_append_left _ hu2, hlt2⟩

theorem c2_inv_run (delay t : Nat) (hd : 0 < delay) (es : List PEvent)
    (hsort : SortedP es)
    (hnh : ∀ u, PEvent.holdExpire u ∉ es)
    (huniq : ∀ u, PEvent.close401 u ∈ es → u = t)
    (hregall : ∀ u, PEvent.registerAt u ∈ es → t < u)
    (hces : PEvent.close401 t ∈ es) :
    ∀ (rest p : List PEvent) (s : PState),
      es = p ++ rest → C2Inv delay t p s →
      C2Inv delay t es (rest.foldl (pStep delay) s) := by
  intro rest
  induction rest with
  | nil =>
    intro p s heq hinv
    rw [List.append_nil] at heq
    subst heq
    simpa using hinv
  | cons e rest ih =>
    intro p s heq hinv
    have hstep := c2_inv_step delay t hd es hsort hnh huniq hregall hces p rest e s heq hinv
    have heq2 : es = (p ++ [e]) ++ rest := by
      rw [heq, List.append_assoc]
      rfl
    have hres := ih (p ++ [e]) (pStep delay s e) heq2 hstep
    simpa using hres

/-- Claim C2 (amended): along any invocation trace in which the pairing
hold-window expiry cleanup is never scheduled, if the single 401 close
happens at time `t` before registration completes, then every removal of
the temporary directory happens exactly at `t + CLEANUP_DELAY_MS` (so
never earlier than the grace delay after the close), and no removal at all
happens when registration completes before the grace delay elapses.  The
hold-expiry path (lines 241 to 247) can remove the directory earlier,
independently of the grace timer. -/
theorem c2_amended_ok (delay t : Nat) (es : List PEvent)
    (hd : 0 < delay) (hsort : SortedP es)
    (hnh : ∀ u, PEvent.holdExpire u ∉ es)
    (hces : PEvent.close401 t ∈ es)
    (huniq : ∀ u, PEvent.close401 u ∈ es → u = t)
    (hregall : ∀ u, PEvent.registerAt u ∈ es → t < u) :
    (∀ r ∈ (pRun delay es).removals, r = t + delay) ∧
    ((∃ u, PEvent.registerAt u ∈ es ∧ u < t + delay) → (pRun delay es).removals = []) := by
  have hbase : C2Inv delay t [] pInit := by
    unfold C2Inv pInit
    exact ⟨rfl, Or.inl ⟨by simp, rfl, rfl, rfl, rfl⟩⟩
  have hinv := c2_inv_run delay t hd es hsort hnh huniq hregall hces es [] pInit
    (by simp) hbase
  unfold C2Inv at hinv
  obtain ⟨hhold, hcase⟩ := hinv
  have hpr : pRun delay es = fireDueP (es.foldl (pStep delay) pInit) none := rfl
  rcases hcase with ⟨hA1, _⟩ | ⟨_, hB2, hB3, hB4, hB5, hB6⟩ |
    ⟨_, _, hC3, hC4, hC5, hC6⟩
  · exact absurd hces hA1
  · by_cases hr : (es.foldl (pStep delay) pInit).registered = true
    · have hval : (pRun delay es).removals = [] := by
        rw [hpr]
        simp [fireDueP, hB3, hhold, dueP, fireCleanupP, hr, hB4]
      rw [hval]
      exact ⟨by simp, fun _ => rfl⟩
    · have hval : (pRun delay es).removals = [t + delay] := by
        rw [hpr]
        simp [fireDueP, hB3, hhold, dueP, fireCleanupP, hr, hB4, removeDirP, hB5]
      rw [hval]
      constructor
      · intro r hrr
        simpa using hrr
      · rintro ⟨u, hu, _⟩
        exact absurd (hB6.mpr ⟨u, hu⟩) hr
  · have hval : pRun delay es = es.foldl (pStep delay) pInit := by
      rw [hpr]
      simp [fireDueP, hC3, hhold]
    rw [hval]
    by_cases hx : ∃ u, PEvent.registerAt u ∈ es ∧ u < t + delay
    · obtain ⟨hrem, _⟩ := hC5 hx
      rw [hrem]
      exact ⟨by simp, fun _ => rfl⟩
    · obtain ⟨hrem, _⟩ := hC6 hx
      rw [hrem]
      constructor
      · intro r hrr
        simpa using hrr
      · intro hx2
        exact absurd hx2 hx

/-- Claim C2 amended-theorem witness: one 401 close at time 100 followed by
registration at time 200 (within the grace delay) leads to no removal. -/
theorem c2_amended_witness :
    (∀ r ∈ (pRun 15000 [PEvent.close401 100, PEvent.registerAt 200]).removals,
      r = 100 + 15000) ∧
    ((∃ u, PEvent.registerAt u ∈ [PEvent.close401 100, PEvent.registerAt 200] ∧
        u < 100 + 15000) →
      (pRun 15000 [PEvent.close401 100, PEvent.registerAt 200]).removals = []) :=
  c2_amended_ok 15000 100 [PEvent.close401 100, PEvent.registerAt 200]
    (by decide) (by unfold SortedP; decide)
    (by
      intro u hu
      simp only [List.mem_cons, List.not_mem_nil, or_false] at hu
      rcases hu with h | h
      · cases h
      · cases h)
    (by decide)
    (by
      intro u hu
      simp only [List.mem_cons, List.not_mem_nil, or_false] at hu
      rcases hu with h | h
      · cases h
        rfl
      · cases h)
    (by
      intro u hu
      simp only [List.mem_cons, List.not_mem_nil, or_false] at hu
      rcases hu with h | h
      · cases h
      · cases h
        omega)

/-! ### Helper lemmas about the scheduling model -/

theorem pairProg_ne_midProg (ws ws2 : List Nat) : pairProg ws ≠ midProg ws2 := by
  unfold pairProg midProg
  cases ws2 with
  | nil => simp
  | cons w ws3 => simp

theorem midProg_ne_nil (ws : List Nat) : midProg ws ≠ [] := by
  unfold midProg
  cases ws <;> simp

theorem pairProg_ne_nil (ws : List Nat) : pairProg ws ≠ [] := by
  unfold pairProg
  simp

theorem get_concat (l : List Nat) (t : Nat) (i : Nat) (hi : i < (l ++ [t]).length) :
    (l ++ [t]).get ⟨i, hi⟩ = if h : i < l.length then l.get ⟨i, h⟩ else t := by
  rcases Nat.lt_or_ge i l.length with h | h
  · rw [dif_pos h]
    simp only [List.get_eq_getElem]
    exact List.getElem_append_left h
  · have hieq : i = l.length := by
      have h2 : i < l.length + 1 := by simpa using hi
      omega
    rw [dif_neg (by omega)]
    simp only [List.get_eq_getElem]
    exact List.getElem_concat_length l t i hieq _

theorem ota_of_not_mem (t : Nat) (l : List Nat) (h : t ∉ l) : OnceThenAlways t l := by
  intro i j hi hj _ hEq
  exact absurd (hEq ▸ List.get_mem l i hi) h

theorem ota_concat_self (t : Nat) (l : List Nat) (h : OnceThenAlways t l) :
    OnceThenAlways t (l ++ [t]) := by
  intro i j hi hj hij hEq
  rw [get_concat l t i hi] at hEq
  rw [get_concat l t j hj]
  by_cases hjl : j < l.length
  · have hil : i < l.length := lt_trans hij hjl
    rw [dif_pos hjl]
    rw [dif_pos hil] at hEq
    exact h i j hil hjl hij hEq
  · rw [dif_neg hjl]

theorem not_interleaved_concat (t : Nat) (l : List Nat)
    (hni : ¬ Interleaved l) (hota : OnceThenAlways t l) :
    ¬ Interleaved (l ++ [t]) := by
  rintro ⟨i, j, k, hi, hj, hk, hij, hjk, hEq, hNe⟩
  rw [get_concat l t i hi, get_concat l t k hk] at hEq
  rw [get_concat l t j hj, get_concat l t i hi] at hNe
  by_cases hkl : k < l.length
  · have hjl : j < l.length := lt_trans hjk hkl
    have hil : i < l.length := lt_trans hij hjl
    rw [dif_pos hil, dif_pos hkl] at hEq
    rw [dif_pos hjl, dif_pos hil] at hNe
    exact hni ⟨i, j, k, hil, hjl, hkl, hij, hjk, hEq, hNe⟩
  · have hjl : j < l.length := by
      have h2 : k < l.length + 1 := by simpa using hk
      omega
    have hil : i < l.length := lt_trans hij hjl
    rw [dif_pos hil, dif_neg hkl] at hEq
    rw [dif_pos hjl, dif_pos hil] at hNe
    have hjt := hota i j hil hjl hij hEq
    exact hNe (hjt.trans hEq.symm)

theorem progs_set_get (l : List (List StepK)) (t : Nat) (restP old : List StepK)
    (hget : l[t]? = some old) (u : Nat) :
    (l.set t restP)[u]? = if u = t then some restP else l[u]? := by
  by_cases h : u = t
  · subst h
    rw [if_pos rfl]
    have hlt : u < l.length := by
      rcases List.getElem?_eq_some.mp hget with ⟨hh, _⟩
      exact hh
    exact List.getElem?_set_self hlt
  · rw [if_neg h]
    exact List.getElem?_set_ne (fun hh => h hh.symm)

theorem execStep_acquire (s : Sched) (t : Nat) (restP : List StepK)
    (hget : s.progs[t]? = some (StepK.acquire :: restP)) :
    execStep s t =
      (match s.lock with
       | none => some { progs := s.progs.set t restP, lock := some t }
       | some _ => none) := by
  unfold execStep
  rw [hget]

theorem execStep_release2 (s : Sched) (t : Nat) (restP : List StepK)
    (hget : s.progs[t]? = some (StepK.release :: restP)) :
    execStep s t =
      (if s.lock = some t then some { progs := s.progs.set t restP, lock := none }
       else none) := by
  unfold execStep
  rw [hget]

theorem execStep_work2 (s : Sched) (t : Nat) (op : Nat) (restP : List StepK)
    (hget : s.progs[t]? = some (StepK.work op :: restP)) :
    execStep s t = some { progs := s.progs.set t restP, lock := s.lock } := by
  unfold execStep
  rw [hget]

theorem sinv_acquire (s : Sched) (os : List Nat) (t : Nat) (restP : List StepK)
    (s2 : Sched) (hinv : SInv s os)
    (hget : s.progs[t]? = some (StepK.acquire :: restP))
    (hex : execStep s t = some s2) : SInv s2 os := by
  have hex2 := hex
  rw [execStep_acquire s t restP hget] at hex2
  cases hlock : s.lock with
  | some u =>
    rw [hlock] at hex2
    exact absurd hex2 (by simp)
  | none =>
    rw [hlock] at hex2
    have hs2 : s2 = { progs := s.progs.set t restP, lock := some t } :=
      (Option.some.inj hex2).symm
    subst hs2
    have hpair : ∃ ws, StepK.acquire :: restP = pairProg ws := by
      rcases hinv.shape t _ hget with h | ⟨ws, hws⟩ | hnil
      · exact h
      · exfalso
        unfold midProg at hws
        cases ws with
        | nil => simp at hws
        | cons w ws3 => simp at hws
      · simp at hnil
    obtain ⟨ws, hws⟩ := hpair
    have hmid : ∃ ws2, restP = midProg ws2 := by
      refine ⟨ws, ?_⟩
      unfold pairProg at hws
      exact (List.cons.inj hws).2
    have hnotos : t ∉ os := by
      intro hmem
      obtain ⟨rem, hrem, hnp⟩ := hinv.started t hmem
      have hremeq : rem = StepK.acquire :: restP := Option.some.inj (hrem.symm.trans hget)
      exact hnp ⟨ws, hremeq.trans hws⟩
    have hg2 := progs_set_get s.progs t restP _ hget
    refine ⟨?_, ?_, ?_, ?_, hinv.nointer, ?_⟩
    · intro u rem hu
      rw [hg2 u] at hu
      by_cases h : u = t
      · rw [if_pos h] at hu
        exact Or.inr (Or.inl ((Option.some.inj hu).symm ▸ hmid))
      · rw [if_neg h] at hu
        exact hinv.shape u rem hu
    · intro u rem hu hm
      rw [hg2 u] at hu
      by_cases h : u = t
      · subst h
        rfl
      · rw [if_neg h] at hu
        have := hinv.mid_lock u rem hu hm
        rw [hlock] at this
        exact absurd this (by simp)
    · intro u hu
      have hu2 : (some t : Option Nat) = some u := hu
      have hut : u = t := (Option.some.inj hu2).symm
      subst hut
      exact ⟨restP, by rw [hg2 u, if_pos rfl], hmid⟩
    · intro a ha
      obtain ⟨rem, hrem, hnp⟩ := hinv.started a ha
      have hat : a ≠ t := by
        intro h
        subst h
        exact hnotos ha
      exact ⟨rem, by rw [hg2 a, if_neg hat]; exact hrem, hnp⟩
    · intro u hu
      have hu2 : (some t : Option Nat) = some u := hu
      have hut : u = t := (Option.some.inj hu2).symm
      subst hut
      exact ota_of_not_mem u os hnotos

theorem sinv_release (s : Sched) (os : List Nat) (t : Nat) (restP : List StepK)
    (s2 : Sched) (hinv : SInv s os)
    (hget : s.progs[t]? = some (StepK.release :: restP))
    (hex : execStep s t = some s2) : SInv s2 os := by
  have hex2 := hex
  rw [execStep_release2 s t restP hget] at hex2
  by_cases hlock : s.lock = some t
  · rw [if_pos hlock] at hex2
    have hs2 : s2 = { progs := s.progs.set t restP, lock := none } :=
      (Option.some.inj hex2).symm
    subst hs2
    have hnil : restP = [] := by
      rcases hinv.shape t _ hget with ⟨ws, hws⟩ | ⟨ws, hws⟩ | hn
      · exfalso
        unfold pairProg at hws
        simp at hws
      · unfold midProg at hws
        cases ws with
        | nil => simpa using (List.cons.inj hws).2.symm
        | cons w ws3 => simp at hws
      · simp at hn
    subst hnil
    have hg2 := progs_set_get s.progs t [] _ hget
    refine ⟨?_, ?_, ?_, ?_, hinv.nointer, ?_⟩
    · intro u rem hu
      rw [hg2 u] at hu
      by_cases h : u = t
      · rw [if_pos h] at hu
        exact Or.inr (Or.inr (Option.some.inj hu).symm)
      · rw [if_neg h] at hu
        exact hinv.shape u rem hu
    · intro u rem hu hm
      rw [hg2 u] at hu
      by_cases h : u = t
      · rw [if_pos h] at hu
        obtain ⟨ws, hws⟩ := hm
        rw [← Option.some.inj hu] at hws
        exact absurd hws.symm (midProg_ne_nil ws)
      · rw [if_neg h] at hu
        have := hinv.mid_lock u rem hu hm
        rw [hlock] at this
        exact absurd (Option.some.inj this) (fun hh => h hh.symm)
    · intro u hu
      exact absurd hu (by simp)
    · intro a ha
      obtain ⟨rem, hrem, hnp⟩ := hinv.started a ha
      by_cases h : a = t
      · subst h
        refine ⟨[], by rw [hg2 a, if_pos rfl], ?_⟩
        rintro ⟨ws, hws⟩
        exact pairProg_ne_nil ws hws.symm
      · exact ⟨rem, by rw [hg2 a, if_neg h]; exact hrem, hnp⟩
    · intro u hu
      exact absurd hu (by simp)
  · rw [if_neg hlock] at hex2
    exact absurd hex2 (by simp)


theorem sinv_work (s : Sched) (os : List Nat) (t : Nat) (op : Nat) (restP : List StepK)
    (s2 : Sched) (hinv : SInv s os)
    (hget : s.progs[t]? = some (StepK.work op :: restP))
    (hex : execStep s t = some s2) : SInv s2 (os ++ [t]) := by
  have hex2 := hex
  rw [execStep_work2 s t op restP hget] at hex2
  have hs2 : s2 = { progs := s.progs.set t restP, lock := s.lock } :=
    (Option.some.inj hex2).symm
  subst hs2
  have hmid : ∃ ws2, restP = midProg ws2 := by
    rcases hinv.shape t _ hget with ⟨ws, hws⟩ | ⟨ws, hws⟩ | hn
    · exfalso
      unfold pairProg at hws
      simp at hws
    · unfold midProg at hws
      cases ws with
      | nil => simp at hws
      | cons w ws3 =>
        refine ⟨ws3, ?_⟩
        simpa [midProg] using (List.cons.inj hws).2
    · simp at hn
  have hlock : s.lock = some t :=
    hinv.mid_lock t _ hget (by
      rcases hinv.shape t _ hget with ⟨ws, hws⟩ | hm | hn
      · exfalso
        unfold pairProg at hws
        simp at hws
      · exact hm
      · simp at hn)
  have hg2 := progs_set_get s.progs t restP _ hget
  have hota : OnceThenAlways t os := hinv.holder_ota t hlock
  refine ⟨?_, ?_, ?_, ?_, ?_, ?_⟩
  · intro u rem hu
    rw [hg2 u] at hu
    by_cases h : u = t
    · rw [if_pos h] at hu
      exact Or.inr (Or.inl ((Option.some.inj hu).symm ▸ hmid))
    · rw [if_neg h] at hu
      exact hinv.shape u rem hu
  · intro u rem hu hm
    rw [hg2 u] at hu
    by_cases h : u = t
    · subst h
      exact hlock
    · rw [if_neg h] at hu
      exact hinv.mid_lock u rem hu hm
  · intro u hu
    have hut : u = t := by
      rw [hlock] at hu
      have hu2 : (some t : Option Nat) = some u := hu
      exact (Option.some.inj hu2).symm
    subst hut
    exact ⟨restP, by rw [hg2 u, if_pos rfl], hmid⟩
  · intro a ha
    rcases List.mem_append.mp ha with hao | hat
    · obtain ⟨rem, hrem, hnp⟩ := hinv.started a hao
      by_cases h : a = t
      · subst h
        refine ⟨restP, by rw [hg2 a, if_pos rfl], ?_⟩
        rintro ⟨ws, hws⟩
        obtain ⟨ws2, hws2⟩ := hmid
        exact pairProg_ne_midProg ws ws2 (hws ▸ hws2)
      · exact ⟨rem, by rw [hg2 a, if_neg h]; exact hrem, hnp⟩
    · have h : a = t := by simpa using hat
      subst h
      refine ⟨restP, by rw [hg2 a, if_pos rfl], ?_⟩
      rintro ⟨ws, hws⟩
      obtain ⟨ws2, hws2⟩ := hmid
      exact pairProg_ne_midProg ws ws2 (hws ▸ hws2)
  · exact not_interleaved_concat t os hinv.nointer hota
  · intro u hu
    have hut : u = t := by
      rw [hlock] at hu
      have hu2 : (some t : Option Nat) = some u := hu
      exact (Option.some.inj hu2).symm
    subst hut
    exact ota_concat_self u os hota

theorem sinv_run :
    ∀ (sched : List Nat) (s : Sched) (os : List Nat), SInv s os →
      ∀ (sf : Sched) (tr : List (Nat × Nat)),
        runTrace s sched = some (sf, tr) → SInv sf (os ++ tr.map Prod.fst) := by
  intro sched
  induction sched with
  | nil =>
    intro s os hinv sf tr hrun
    unfold runTrace at hrun
    have h1 : s = sf ∧ ([] : List (Nat × Nat)) = tr := by
      have := Option.some.inj hrun
      exact ⟨congrArg Prod.fst this, congrArg Prod.snd this⟩
    obtain ⟨hsf, htr⟩ := h1
    subst hsf
    rw [← htr]
    simpa using hinv
  | cons t ts ih =>
    intro s os hinv sf tr hrun
    unfold runTrace at hrun
    split at hrun
    · exact absurd hrun (by simp)
    · rename_i s2 hex
      split at hrun
      · exact absurd hrun (by simp)
      · rename_i r hrt
        split at hrun
        · rename_i op tl hget
          have hr : sf = r.1 ∧ tr = (t, op) :: r.2 := by
            have h2 := Option.some.inj hrun
            exact ⟨(congrArg Prod.fst h2).symm, (congrArg Prod.snd h2).symm⟩
          obtain ⟨hsf, htr⟩ := hr
          subst hsf
          subst htr
          have hres := ih s2 (os ++ [t]) (sinv_work s os t op tl s2 hinv hget hex)
            r.1 r.2 hrt
          simpa [List.append_assoc] using hres
        · rename_i hnw
          have hr : sf = r.1 ∧ tr = r.2 := by
            have h2 := Option.some.inj hrun
            exact ⟨(congrArg Prod.fst h2).symm, (congrArg Prod.snd h2).symm⟩
          obtain ⟨hsf, htr⟩ := hr
          subst hsf
          subst htr
          cases hget : s.progs[t]? with
          | none =>
            exfalso
            unfold execStep at hex
            rw [hget] at hex
            exact absurd hex (by simp)
          | some rem =>
            cases rem with
            | nil =>
              exfalso
              unfold execStep at hex
              rw [hget] at hex
              exact absurd hex (by simp)
            | cons sk restP =>
              cases sk with
              | acquire =>
                exact ih s2 os (sinv_acquire s os t restP s2 hinv hget hex) r.1 r.2 hrt
              | release =>
                exact ih s2 os (sinv_release s os t restP s2 hinv hget hex) r.1 r.2 hrt
              | work op =>
                exact absurd hget (hnw op restP)

/-! ### Claim C3 -/

/-- Claim C3 counterexample: a `/pair` handler and a scheduled reconnect
(which invokes `connector` without acquiring the mutex, line 193) can
interleave their directory-creation (operation 0) and credential-write
(operation 1) steps: the schedule below is executable even though task 0
holds the mutex throughout, and its work trace alternates between the two
invocations. -/
theorem c3_counterexample :
    runTrace { progs := [pairProg [0, 1], reconnectProg [0, 1]], lock := none }
        [0, 0, 1, 0, 1, 0] =
      some ({ progs := [[], []], lock := none }, [(0, 0), (1, 0), (0, 1), (1, 1)]) ∧
    Interleaved ([(0, 0), (1, 0), (0, 1), (1, 1)].map Prod.fst) := by
  constructor
  · rfl
  · exact ⟨0, 1, 2, by decide, by decide, by decide, by decide, by decide, rfl, by decide⟩

/-- Claim C3 (amended): invocations that go through the `/pair` handler
(the mutex wraps the whole `connector` call, with the release in the
`finally`, so it runs in every outcome) never interleave their
directory-creation and credential-write operations: for every executable
schedule of pair-shaped tasks the work trace is not interleaved; whenever
a task is about to perform a `connector` operation, every other task that
has performed any is completely finished (its handler returned and
released the lock); and once every task has finished, the mutex is free.
A scheduled reconnect instead runs `connector` without the mutex, and the
counterexample shows its operations interleaving with a `/pair` flow. -/
theorem c3_amended_ok (progs0 : List (List StepK))
    (hshape : ∀ p ∈ progs0, ∃ ws, p = pairProg ws)
    (sched : List Nat) (sf : Sched) (tr : List (Nat × Nat))
    (hrun : runTrace { progs := progs0, lock := none } sched = some (sf, tr)) :
    ¬ Interleaved (tr.map Prod.fst) ∧
    (∀ (t op : Nat) (restP : List StepK),
      sf.progs[t]? = some (StepK.work op :: restP) →
      ∀ a ∈ tr.map Prod.fst, a ≠ t → sf.progs[a]? = some []) ∧
    ((∀ (t : Nat) (rem : List StepK), sf.progs[t]? = some rem → rem = []) →
      sf.lock = none) := by
  have hbase : SInv { progs := progs0, lock := none } [] := by
    refine ⟨?_, ?_, ?_, ?_, ?_, ?_⟩
    · intro t rem hget
      exact Or.inl (hshape rem (List.getElem?_mem hget))
    · intro t rem hget hm
      exfalso
      obtain ⟨ws, hws⟩ := hshape rem (List.getElem?_mem hget)
      obtain ⟨ws2, hws2⟩ := hm
      exact pairProg_ne_midProg ws ws2 (hws ▸ hws2)
    · intro u hu
      exact absurd hu (by simp)
    · intro a ha
      exact absurd ha (List.not_mem_nil a)
    · rintro ⟨i, j, k, hi, hj, hk, _⟩
      simp at hi
    · intro u hu
      exact absurd hu (by simp)
  have hfin := sinv_run sched { progs := progs0, lock := none } [] hbase sf tr hrun
  simp only [List.nil_append] at hfin
  refine ⟨hfin.nointer, ?_, ?_⟩
  · intro t op restP hget a ha hne
    have hm : ∃ ws, (StepK.work op :: restP) = midProg ws := by
      rcases hfin.shape t _ hget with ⟨ws, hws⟩ | hm | hn
      · exfalso
        unfold pairProg at hws
        simp at hws
      · exact hm
      · simp at hn
    have hlock : sf.lock = some t := hfin.mid_lock t _ hget hm
    obtain ⟨rem, hrem, hnp⟩ := hfin.started a ha
    rcases hfin.shape a _ hrem with hp | ⟨ws, hws⟩ | hn
    · exact absurd hp hnp
    · exfalso
      have h2 := hfin.mid_lock a _ hrem ⟨ws, hws⟩
      rw [hlock] at h2
      exact hne (Option.some.inj h2).symm
    · rw [hn] at hrem
      exact hrem
  · intro hall
    cases hlk : sf.lock with
    | none => rfl
    | some u =>
      exfalso
      obtain ⟨rem, hrem, ws, hws⟩ := hfin.lock_mid u hlk
      have h2 := hall u rem hrem
      rw [h2] at hws
      exact midProg_ne_nil ws hws.symm

/-- Claim C3 amended-theorem witness: one concrete `/pair` task run to
completion under the serialized scheduler. -/
theorem c3_amended_witness :
    ¬ Interleaved ([((0 : Nat), (0 : Nat)), (0, 1)].map Prod.fst) ∧
    (∀ (t op : Nat) (restP : List StepK),
      ({ progs := [[]], lock := none } : Sched).progs[t]? =
        some (StepK.work op :: restP) →
      ∀ a ∈ [((0 : Nat), (0 : Nat)), (0, 1)].map Prod.fst, a ≠ t →
        ({ progs := [[]], lock := none } : Sched).progs[a]? = some []) ∧
    ((∀ (t : Nat) (rem : List StepK),
        ({ progs := [[]], lock := none } : Sched).progs[t]? = some rem → rem = []) →
      ({ progs := [[]], lock := none } : Sched).lock = none) :=
  c3_amended_ok [pairProg [0, 1]]
    (by
      intro p hp
      simp only [List.mem_singleton] at hp
      exact ⟨[0, 1], hp⟩)
    [0, 0, 0, 0] { progs := [[]], lock := none } [(0, 0), (0, 1)] rfl
